import Mathlib

/-!
# Verification of the CS208 malloc-lab allocator

A shallow embedding of `src/Malloc_implementation_lab.c`: a simple dynamic
memory allocator based on an explicit free list, first-fit search and
boundary-tag coalescing.

The heap is modelled as a word-addressed memory `Nat → Nat` (the C code only
ever reads and writes 8-byte-aligned `size_t` words, so a map from the byte
address of a word to its 64-bit value is faithful).  Machine arithmetic on
`size_t` values is `Nat` arithmetic truncated by an explicit `% 2 ^ 64`
wherever the C program can overflow; the `int`-typed remainder computation in
`place` is modelled by explicit two's-complement truncation to 32 bits, as on
the lab's x86-64 target.  Pointers are byte addresses (`Nat`); the null
pointer is the address 0 and the low boundary of the heap is the fixed
nonzero, 16-byte-aligned address `memLo` (standing for `mem_heap_lo()`).

The external memory source (`memlib`) is not part of the repository's source;
it is modelled from the spec as a primitive that appends bytes to the end of
the managed region up to a fixed capacity or signals failure.
-/

set_option maxRecDepth 4000

namespace Malloc

/-- Truncation of a `Nat` to a 64-bit machine word (`size_t` arithmetic). -/
def w64 (n : Nat) : Nat := n % 2 ^ 64

/-- `size_t` subtraction `x - y`, which wraps modulo `2 ^ 64` in C. -/
def sub64 (x y : Nat) : Nat := (x + (2 ^ 64 - y % 2 ^ 64)) % 2 ^ 64

/-- Conversion of a `size_t` value to the C type `int`: truncation to 32 bits
    interpreted in two's complement (the behaviour on the lab's target). -/
def toInt32 (n : Nat) : Int :=
  if n % 2 ^ 32 < 2 ^ 31 then ((n % 2 ^ 32 : Nat) : Int)
  else ((n % 2 ^ 32 : Nat) : Int) - 2 ^ 32

/-- Word-addressed memory: the 64-bit word starting at each byte address. -/
def Mem : Type := Nat → Nat

/-- `#define WSIZE 8` : word size (bytes). -/
def WSIZE : Nat := 8

/-- `#define DSIZE 16` : doubleword size (bytes). -/
def DSIZE : Nat := 16

/-- `#define CHUNKSIZE (1<<12)` : initial heap size (bytes). -/
def CHUNKSIZE : Nat := 4096

/-- `#define OVERHEAD 16` : overhead of header and footer (bytes). -/
def OVERHEAD : Nat := 16

/-- `#define MINIMUMSIZE 32` : minimum size of a block. -/
def MINIMUMSIZE : Nat := 32

/-- Modelled from the spec: the low boundary of the heap's memory source
    (`mem_heap_lo()` of the external `memlib` collaborator, which is not part
    of the repository's source).  A fixed nonzero 16-byte-aligned address. -/
def memLo : Nat := 1048576

/-- The allocator state: the heap memory, the current high boundary of the
    managed region (one past the last byte), the C global `heap_start`
    (initially the first byte of the heap, afterwards the free-list head
    pointer), and the capacity of the external memory source. -/
structure St where
  mem : Mem
  hi : Nat
  heap_start : Nat
  cap : Nat

/-- `GET(p)` : read the word at address `p`. -/
def GET (m : Mem) (p : Nat) : Nat := m p

/-- `PUT(p, val)` : write the word `val` at address `p` (a 64-bit store). -/
def PUT (s : St) (p v : Nat) : St :=
  { s with mem := fun q => if q = p then w64 v else s.mem q }

/-- `PACK(size, alloc)` : combine a size (a multiple of 16, so its low four
    bits are free) and a 1-bit allocated flag into a tag word.  The C macro is
    the bitwise or `(size) | (alloc)`, which on its use contract (aligned
    size, one-bit flag) coincides with addition. -/
def PACK (size alloc : Nat) : Nat := size + alloc

/-- `GET_SIZE(p)` : the tag with its low four bits cleared (`GET(p) & ~0xf`),
    i.e. the word rounded down to a multiple of 16. -/
def GET_SIZE (w : Nat) : Nat := 16 * (w / 16)

/-- `GET_ALLOC(p)` : the low bit of the tag (`GET(p) & 0x1`). -/
def GET_ALLOC (w : Nat) : Nat := w % 2

/-- `HDRP(bp)` : address of the header of the block with payload pointer
    `bp` (`PSUB(bp, WSIZE)`). -/
def HDRP (bp : Nat) : Nat := bp - 8

/-- `FTRP(bp)` : address of the footer,
    `PADD(bp, GET_SIZE(HDRP(bp)) - DSIZE)`. -/
def FTRP (m : Mem) (bp : Nat) : Nat := bp + GET_SIZE (m (HDRP bp)) - 16

/-- `NEXT_BLKP(bp)` : payload pointer of the next block in address order,
    `PADD(bp, GET_SIZE(HDRP(bp)))`. -/
def NEXT_BLKP (m : Mem) (bp : Nat) : Nat := bp + GET_SIZE (m (HDRP bp))

/-- `PREV_BLKP(bp)` : payload pointer of the previous block in address
    order, `PSUB(bp, GET_SIZE(PSUB(bp, DSIZE)))` (reads the previous block's
    footer). -/
def PREV_BLKP (m : Mem) (bp : Nat) : Nat := bp - GET_SIZE (m (bp - 16))

/-- `PREV_FREE(bp)` : the previous-free-block link, stored in the first
    payload word of a free block. -/
def PREV_FREE (m : Mem) (bp : Nat) : Nat := m bp

/-- `NEXT_FREE(bp)` : the next-free-block link, stored in the second payload
    word of a free block. -/
def NEXT_FREE (m : Mem) (bp : Nat) : Nat := m (bp + 8)

/-- Modelled from the spec: the heap-extension primitive `mem_sbrk` of the
    external memory source — `request(n_bytes) -> region_start | failure`;
    appends `n_bytes` to the end of the managed region and returns the start
    of the appended region, or signals failure (address-space exhaustion)
    without partial effect. -/
def mem_sbrk (s : St) (incr : Nat) : Option (St × Nat) :=
  if s.hi + incr ≤ memLo + s.cap then some ({ s with hi := s.hi + incr }, s.hi)
  else none

/-- `max` : returns `x` if `x > y`, and `y` otherwise. -/
def mm_max (x y : Nat) : Nat := if x > y then x else y

/-- `insert_head` : insert the free block `bp` at the head of the linked
    list.  Sets `NEXT_FREE(bp)` to the old head, the old head's
    `PREV_FREE` to `bp`, `PREV_FREE(bp)` to `NULL`, and the head to `bp`. -/
def insert_head (s : St) (bp : Nat) : St :=
  let s1 := PUT s (bp + 8) s.heap_start
  let s2 := PUT s1 s.heap_start bp
  let s3 := PUT s2 bp 0
  { s3 with heap_start := bp }

/-- `remove_node` : remove the node `bp` from the linked list.  If `bp` is
    not the head (its `PREV_FREE` is non-null) the predecessor's `NEXT_FREE`
    is spliced past it, otherwise the head advances; either way the
    successor's `PREV_FREE` is spliced (re-reading the links, as the C code
    does). -/
def remove_node (s : St) (bp : Nat) : St :=
  let s1 :=
    if PREV_FREE s.mem bp ≠ 0 then PUT s (PREV_FREE s.mem bp + 8) (NEXT_FREE s.mem bp)
    else { s with heap_start := NEXT_FREE s.mem bp }
  PUT s1 (NEXT_FREE s1.mem bp) (PREV_FREE s1.mem bp)

/-- `coalesce` : boundary-tag coalescing of the logically-free block `bp`
    with its free neighbours.  Reads the previous block's allocated flag from
    its footer (`PSUB(bp, DSIZE)`) and the next block's from its header, and
    handles the four cases of the C code in order, returning the new state
    and the (possibly relocated) block pointer. -/
def coalesce (s : St) (bp : Nat) : St × Nat :=
  let prev_alloc := GET_ALLOC (s.mem (bp - 16))
  let next_alloc := GET_ALLOC (s.mem (HDRP (NEXT_BLKP s.mem bp)))
  let size := GET_SIZE (s.mem (HDRP bp))
  if prev_alloc ≠ 0 ∧ next_alloc ≠ 0 then
    (insert_head s bp, bp)
  else if prev_alloc ≠ 0 ∧ next_alloc = 0 then
    let size2 := w64 (size + GET_SIZE (s.mem (HDRP (NEXT_BLKP s.mem bp))))
    let s1 := remove_node s (NEXT_BLKP s.mem bp)
    let s2 := PUT s1 (HDRP bp) (PACK size2 0)
    let s3 := PUT s2 (FTRP s2.mem bp) (PACK size2 0)
    (insert_head s3 bp, bp)
  else if prev_alloc = 0 ∧ next_alloc ≠ 0 then
    let size2 := w64 (size + GET_SIZE (s.mem (HDRP (PREV_BLKP s.mem bp))))
    let bp2 := PREV_BLKP s.mem bp
    let s1 := remove_node s bp2
    let s2 := PUT s1 (HDRP bp2) (PACK size2 0)
    let s3 := PUT s2 (FTRP s2.mem bp2) (PACK size2 0)
    (insert_head s3 bp2, bp2)
  else
    let size2 := w64 (size + GET_SIZE (s.mem (HDRP (PREV_BLKP s.mem bp)))
      + GET_SIZE (s.mem (HDRP (NEXT_BLKP s.mem bp))))
    let s1 := remove_node s (PREV_BLKP s.mem bp)
    let s2 := remove_node s1 (NEXT_BLKP s1.mem bp)
    let bp2 := PREV_BLKP s2.mem bp
    let s3 := PUT s2 (HDRP bp2) (PACK size2 0)
    let s4 := PUT s3 (FTRP s3.mem bp2) (PACK size2 0)
    (insert_head s4 bp2, bp2)

/-- `place` : place a block of `asize` bytes at the start of the free block
    `bp`.  The remainder `free_space_left` is computed in the C type `int`;
    if it is below `MINIMUMSIZE` the whole block is allocated, otherwise the
    block is split and the remainder is inserted at the free-list head. -/
def place (s : St) (bp asize : Nat) : St :=
  let free_space_left : Int := toInt32 (sub64 (GET_SIZE (s.mem (HDRP bp))) asize)
  if free_space_left < (MINIMUMSIZE : Int) then
    let s1 := PUT s (HDRP bp) (PACK (GET_SIZE (s.mem (HDRP bp))) 1)
    let s2 := PUT s1 (FTRP s1.mem bp) (PACK (GET_SIZE (s1.mem (HDRP bp))) 1)
    remove_node s2 bp
  else
    let s1 := PUT s (HDRP bp) (PACK asize 1)
    let s2 := PUT s1 (FTRP s1.mem bp) (PACK asize 1)
    let s3 := remove_node s2 bp
    let bp2 := NEXT_BLKP s3.mem bp
    let fslN := (free_space_left % (2 ^ 64 : Int)).toNat
    let s4 := PUT s3 (HDRP bp2) (PACK fslN 0)
    let s5 := PUT s4 (FTRP s4.mem bp2) (PACK fslN 0)
    insert_head s5 bp2

/-- The loop of `find_fit`: scan from `cur_block` following `NEXT_FREE`
    links until the terminator `mem_heap_lo()`, returning the first block
    whose size fits; `none` when the scan exhausts the list (the C loop has
    no fuel, so a fuel parameter bounds the recursion; every theorem below
    supplies enough fuel for the list being traversed). -/
def find_fit_aux (m : Mem) (asize : Nat) : Nat → Nat → Option Nat
  | 0, _ => none
  | fuel + 1, cur =>
    if cur = memLo then none
    else if asize ≤ GET_SIZE (m (HDRP cur)) then some cur
    else find_fit_aux m asize fuel (NEXT_FREE m cur)

/-- `find_fit` : find a fit for a block with `asize` bytes — a linear scan
    of the free list from the head (the global `heap_start`); the last
    `NEXT` pointer points to the start of the heap. -/
def find_fit (fuel : Nat) (s : St) (asize : Nat) : Option Nat :=
  find_fit_aux s.mem asize fuel s.heap_start

/-- `extend_heap` : extend the heap with a free block of `words` words
    (rounded up to an even count), write its boundary tags and a fresh
    epilogue header, and coalesce with a possibly-free predecessor.  Returns
    `none` when `mem_sbrk` signals failure. -/
def extend_heap (s : St) (words : Nat) : Option (St × Nat) :=
  let size0 := w64 (words * WSIZE)
  let size := if words % 2 = 1 then w64 (size0 + WSIZE) else size0
  match mem_sbrk s size with
  | none => none
  | some (s1, bp) =>
    let s2 := PUT s1 (HDRP bp) (PACK size 0)
    let s3 := PUT s2 (FTRP s2.mem bp) (PACK size 0)
    let s4 := PUT s3 (HDRP (NEXT_BLKP s3.mem bp)) (PACK 0 1)
    some (coalesce s4 bp)

/-- The fresh state before `mm_init`: an empty managed region with a given
    capacity of the external memory source. -/
def init_state (cap : Nat) : St :=
  { mem := fun _ => 0, hi := memLo, heap_start := 0, cap := cap }

/-- `mm_init` : create the initial empty heap (alignment padding, prologue
    header and footer, epilogue header) and extend it with a free block of
    `CHUNKSIZE` bytes.  Returns `none` where the C code returns `-1` (a
    `mem_sbrk` failure), `some` of the resulting state where it returns 0. -/
def mm_init (cap : Nat) : Option St :=
  match mem_sbrk (init_state cap) (4 * WSIZE) with
  | none => none
  | some (s1, p) =>
    let s2 := { s1 with heap_start := p }
    let s3 := PUT s2 p 0
    let s4 := PUT s3 (p + WSIZE) (PACK OVERHEAD 1)
    let s5 := PUT s4 (p + DSIZE) (PACK OVERHEAD 1)
    let s6 := PUT s5 (p + WSIZE + DSIZE) (PACK 0 1)
    match extend_heap s6 (CHUNKSIZE / WSIZE) with
    | none => none
    | some (s7, _) => some s7

/-- The adjusted block size of `mm_malloc`: `DSIZE + OVERHEAD` for small
    requests, otherwise `DSIZE * ((size + OVERHEAD + (DSIZE-1)) / DSIZE)` —
    overhead added and rounded up to the alignment, in `size_t`
    arithmetic (which wraps modulo `2 ^ 64`). -/
def adjusted_size (size : Nat) : Nat :=
  if size ≤ DSIZE then DSIZE + OVERHEAD
  else w64 (DSIZE * (w64 (size + OVERHEAD + (DSIZE - 1)) / DSIZE))

/-- `mm_malloc` : allocate a block.  Ignores zero-size requests (`size_t` is
    unsigned, so `size <= 0` means `size == 0`); adjusts the size, searches
    the free list for a fit and places the block there, else extends the
    heap by `max(asize, CHUNKSIZE)` and places the block in the extension.
    Returns the new state and the payload pointer (`none` for `NULL`). -/
def mm_malloc (fuel : Nat) (s : St) (size : Nat) : St × Option Nat :=
  if size = 0 then (s, none)
  else
    let asize := adjusted_size size
    match find_fit fuel s asize with
    | some bp => (place s bp asize, some bp)
    | none =>
      let extendsize := mm_max asize CHUNKSIZE
      match extend_heap s (extendsize / WSIZE) with
      | none => (s, none)
      | some (s1, bp) => (place s1 bp asize, some bp)

/-- `mm_free` : deallocate the block `bp` — flip the allocated flag to 0 in
    its header and footer and coalesce. -/
def mm_free (s : St) (bp : Nat) : St :=
  let size := GET_SIZE (s.mem (HDRP bp))
  let s1 := PUT s (HDRP bp) (PACK size 0)
  let s2 := PUT s1 (FTRP s1.mem bp) (PACK size 0)
  (coalesce s2 bp).1

/-- `check_block` : a block passes iff its payload pointer is double-word
    aligned and its header word equals its footer word. -/
def check_block (m : Mem) (bp : Nat) : Bool :=
  bp % DSIZE == 0 && m (HDRP bp) == m (FTRP m bp)

/-- The walk of `check_heap`: visit blocks from `bp` by `NEXT_BLKP` while
    `GET_SIZE(HDRP(bp)) > 0`, checking each with `check_block`; at the end
    check the epilogue header (zero size, allocated).  Fuel bounds the
    recursion of the C loop. -/
def check_heap_go (m : Mem) : Nat → Nat → Bool
  | 0, _ => false
  | fuel + 1, bp =>
    if 0 < GET_SIZE (m (HDRP bp)) then
      check_block m bp && check_heap_go m fuel (NEXT_BLKP m bp)
    else
      GET_SIZE (m (HDRP bp)) == 0 && GET_ALLOC (m (HDRP bp)) != 0

/-- `check_heap` : heap consistency check.  First validates the prologue
    header at `heap_start` (size `DSIZE`, allocated), then walks the blocks
    from `heap_start` and finally validates the epilogue header. -/
def check_heap (fuel : Nat) (s : St) : Bool :=
  if GET_SIZE (s.mem (HDRP s.heap_start)) != DSIZE
      || GET_ALLOC (s.mem (HDRP s.heap_start)) == 0 then false
  else check_heap_go s.mem fuel s.heap_start

/-! ### Property formalisations and concrete scenarios -/

/-- Property predicate for the coalescing-completeness invariant: walking
    the blocks in address order from `bp` (stopping at the zero-size
    epilogue), is some block and its address-order successor both free? -/
def adj_free_walk (m : Mem) : Nat → Nat → Bool
  | 0, _ => false
  | fuel + 1, bp =>
    if GET_SIZE (m (HDRP bp)) = 0 then false
    else if GET_ALLOC (m (HDRP bp)) == 0
        && GET_ALLOC (m (HDRP (NEXT_BLKP m bp))) == 0 then true
    else adj_free_walk m fuel (NEXT_BLKP m bp)

/-- A contract-legal four-operation scenario: initialise; allocate with the
    overflowing request `2 ^ 64 - 16` (whose adjusted size wraps to 0);
    free the returned pointer (returned by allocate and not freed before, so
    within the free contract); allocate 3000 bytes; allocate 2032 bytes. -/
def traceC3 : Option St :=
  (mm_init 4128).bind (fun s0 =>
    let r1 := mm_malloc 10 s0 (2 ^ 64 - 16)
    r1.2.map (fun p1 =>
      let s2 := mm_free r1.1 p1
      let s3 := (mm_malloc 10 s2 3000).1
      (mm_malloc 10 s3 2032).1))

/-- A small concrete heap for exercising `place`: one free block of 48
    bytes at `memLo + 32`, forming the whole free list, sitting between the
    prologue and the epilogue header. -/
def placeStA : St :=
  { mem := fun p =>
      if p = memLo + 8 then 17          -- prologue header
      else if p = memLo + 16 then 17    -- prologue footer
      else if p = memLo + 24 then 48    -- header of the free block
      else if p = memLo + 32 then 0     -- PREV_FREE = NULL (head)
      else if p = memLo + 40 then memLo -- NEXT_FREE = terminator
      else if p = memLo + 64 then 48    -- footer of the free block
      else if p = memLo + 72 then 1     -- epilogue header
      else 0,
    hi := memLo + 80, heap_start := memLo + 32, cap := 80 }

/-- A concrete heap with one huge free block (`2 ^ 32 + 32` bytes) at
    `memLo + 32`, for exercising the `int`-typed remainder computation of
    `place`. -/
def placeStB : St :=
  { mem := fun p =>
      if p = memLo + 8 then 17                    -- prologue header
      else if p = memLo + 16 then 17              -- prologue footer
      else if p = memLo + 24 then 2 ^ 32 + 32     -- header of the free block
      else if p = memLo + 32 then 0               -- PREV_FREE = NULL (head)
      else if p = memLo + 40 then memLo           -- NEXT_FREE = terminator
      else if p = memLo + 16 + 2 ^ 32 + 32 then 2 ^ 32 + 32  -- footer
      else if p = memLo + 24 + 2 ^ 32 + 32 then 1 -- epilogue header
      else 0,
    hi := memLo + 2 ^ 32 + 64, heap_start := memLo + 32, cap := 2 ^ 32 + 64 }

/-- Free-list segment: does the doubly-linked chain in memory `m`, entered
    with head pointer `hd` and previous node `pv`, traverse exactly the
    nodes of `l` in order and leave with head pointer `hd2` and previous
    node `pv2`?  Each node stores its previous link in its first payload
    word and its next link in its second. -/
def flSegB (m : Mem) : Nat → Nat → List Nat → Nat → Nat → Bool
  | hd, pv, [], hd2, pv2 => hd == hd2 && pv == pv2
  | hd, pv, x :: xs, hd2, pv2 => hd == x && m x == pv && flSegB m (m (x + 8)) x xs hd2 pv2

/-- The free list of state `s` consists exactly of the nodes of `l`: the
    chain starts at the head pointer `s.heap_start` with null (0) previous
    link and ends at the terminator `memLo`. -/
def free_list_rep (s : St) (l : List Nat) : Bool :=
  flSegB s.mem s.heap_start 0 l memLo (l.getLastD 0)

/-- Node sanity for a free-list node address: 16-byte aligned, at least
    `memLo + 32` (hence distinct from the null pointer and the terminator)
    and representable in a 64-bit word. -/
def nodesOkB (l : List Nat) : Bool :=
  l.all (fun n => n % 16 == 0 && Nat.ble (memLo + 32) n && Nat.blt n (2 ^ 64))

/-- Separation of the link words of the nodes of `l` from a list of
    protected addresses: no node's previous- or next-link word is at any of
    the addresses in `ts`. -/
def sepB (l ts : List Nat) : Bool :=
  l.all (fun n => ts.all (fun t => n != t && n + 8 != t))

/-- A concrete heap for exercising `coalesce` with both neighbours free:
    prologue; a 32-byte free block at `memLo + 32` (in the free list); a
    32-byte logically-free block at `memLo + 64` (just freed, not yet in the
    list); a 48-byte free block at `memLo + 96` (in the free list);
    epilogue.  The free list is `[memLo + 32, memLo + 96]`. -/
def coalesceStC4 : St :=
  { mem := fun p =>
      if p = memLo + 8 then 17           -- prologue header
      else if p = memLo + 16 then 17     -- prologue footer
      else if p = memLo + 24 then 32     -- header of the previous free block
      else if p = memLo + 32 then 0      -- its PREV_FREE (head)
      else if p = memLo + 40 then memLo + 96  -- its NEXT_FREE
      else if p = memLo + 48 then 32     -- its footer
      else if p = memLo + 56 then 32     -- header of the freed block
      else if p = memLo + 80 then 32     -- footer of the freed block
      else if p = memLo + 88 then 48     -- header of the next free block
      else if p = memLo + 96 then memLo + 32  -- its PREV_FREE
      else if p = memLo + 104 then memLo -- its NEXT_FREE (terminator)
      else if p = memLo + 128 then 48    -- its footer
      else if p = memLo + 136 then 1     -- epilogue header
      else 0,
    hi := memLo + 144, heap_start := memLo + 32, cap := 144 }

/-- The heap state after a successful `mm_init` with capacity 20000 (the
    fallback value of `Option.getD` is never taken: initialisation succeeds). -/
def stExt : St := (mm_init 20000).getD (init_state 0)

/-- A concrete heap with one free block of `2 ^ 31 + 64` bytes at
    `memLo + 32`, for exercising the `int`-typed free-space-left computation
    of `place` on a fitting block much larger than the request. -/
def stC10neg : St :=
  { mem := fun p =>
      if p = memLo + 8 then 17                    -- prologue header
      else if p = memLo + 16 then 17              -- prologue footer
      else if p = memLo + 24 then 2 ^ 31 + 64     -- header of the free block
      else if p = memLo + 32 then 0               -- PREV_FREE = NULL (head)
      else if p = memLo + 40 then memLo           -- NEXT_FREE = terminator
      else if p = memLo + 2 ^ 31 + 80 then 2 ^ 31 + 64  -- footer
      else if p = memLo + 2 ^ 31 + 88 then 1      -- epilogue header
      else 0,
    hi := memLo + 2 ^ 31 + 96, heap_start := memLo + 32, cap := 2 ^ 31 + 96 }

/-! ## Theorems -/

/-! ### Basic lemmas about the state and memory operations -/

theorem PUT_hi (s : St) (p v : Nat) : (PUT s p v).hi = s.hi := rfl

theorem PUT_cap (s : St) (p v : Nat) : (PUT s p v).cap = s.cap := rfl

theorem PUT_heap_start (s : St) (p v : Nat) : (PUT s p v).heap_start = s.heap_start := rfl

theorem PUT_mem_same (s : St) (p v : Nat) : (PUT s p v).mem p = w64 v := by
  simp [PUT]

theorem PUT_mem_other (s : St) (p v q : Nat) (h : q ≠ p) : (PUT s p v).mem q = s.mem q := by
  simp [PUT, h]

theorem mem_sbrk_eq (s : St) (incr : Nat) :
    mem_sbrk s incr =
      if s.hi + incr ≤ memLo + s.cap then some ({ s with hi := s.hi + incr }, s.hi)
      else none := rfl

theorem mem_sbrk_isSome_iff (s : St) (incr : Nat) :
    (mem_sbrk s incr).isSome = true ↔ s.hi + incr ≤ memLo + s.cap := by
  rw [mem_sbrk_eq]
  split <;> simp_all

/-- The number of bytes `extend_heap` requests for a given word count (the
    word count scaled by `WSIZE`, rounded up to an even number of words). -/
theorem extend_heap_isSome_iff (s : St) (words : Nat) (hw : words % 2 = 0)
    (hsz : words * 8 < 2 ^ 64) :
    (extend_heap s words).isSome = true ↔ s.hi + words * 8 ≤ memLo + s.cap := by
  have hsize : (if words % 2 = 1 then w64 (w64 (words * WSIZE) + WSIZE)
      else w64 (words * WSIZE)) = words * 8 := by
    rw [if_neg (by omega)]
    simp only [w64, WSIZE]
    omega
  simp only [extend_heap]
  rw [hsize]
  cases h : mem_sbrk s (words * 8) with
  | none =>
    have hs := (mem_sbrk_isSome_iff s (words * 8)).symm
    simp [h] at hs ⊢
    omega
  | some pr =>
    have hs := (mem_sbrk_isSome_iff s (words * 8))
    simp [h] at hs ⊢
    omega

theorem extend_heap_none_bound (s : St) (words : Nat) (hw : words % 2 = 0)
    (hsz : words * 8 < 2 ^ 64) (h : extend_heap s words = none) :
    ¬ (s.hi + words * 8 ≤ memLo + s.cap) := by
  have hs := extend_heap_isSome_iff s words hw hsz
  rw [h] at hs
  simp at hs
  omega

theorem extend_heap_some_bound (s : St) (words : Nat) (pr : St × Nat) (hw : words % 2 = 0)
    (hsz : words * 8 < 2 ^ 64) (h : extend_heap s words = some pr) :
    s.hi + words * 8 ≤ memLo + s.cap := by
  have hs := extend_heap_isSome_iff s words hw hsz
  rw [h] at hs
  simpa using hs

/-- Claim C3 (code bug): after the contract-legal operation sequence
    `traceC3` (initialise, allocate `2 ^ 64 - 16`, free the returned
    pointer, allocate 3000, allocate 2032) the heap contains two blocks that
    are adjacent in address order and both free — the overflow of the
    adjusted-size computation corrupts the free-list discipline, so
    coalescing is not exhaustive after every public operation as the claim
    states. -/
theorem coalescing_not_exhaustive_after_overflow_malloc :
    traceC3.map (fun s => adj_free_walk s.mem 20 (memLo + 16)) = some true := by
  decide

/-- Claim C4 (code bug): immediately after `mm_init` the prologue block's
    header equals its footer, but after the single contract-legal operation
    `mm_malloc (2 ^ 64 - 16)` (whose adjusted size wraps to 0) the operation
    returns a non-null pointer and the prologue block's header word no
    longer equals its footer word — the header/footer-agreement invariant is
    violated after a public operation. -/
theorem header_footer_mismatch_after_overflow_malloc :
    (mm_init 4128).map (fun s =>
        decide (s.mem (HDRP (memLo + 16)) = s.mem (FTRP s.mem (memLo + 16)))) = some true ∧
    (mm_init 4128).map (fun s0 =>
        let r := mm_malloc 10 s0 (2 ^ 64 - 16)
        r.2.isSome &&
          decide (r.1.mem (HDRP (memLo + 16)) ≠ r.1.mem (FTRP r.1.mem (memLo + 16)))) =
      some true := by
  constructor
  · decide
  · decide

/-- Claim C7, counterexample: in the reachable state right after a
    successful `mm_init`, the free list is non-empty (its head differs from
    the terminator) and the head's previous-link is the stored null pointer
    0, which is not the heap's low boundary `memLo` — so previous-link
    chains end at a null link, refuting that the list terminator in both
    traversal directions is the heap's low boundary with no per-node
    null-link sentinel stored. -/
theorem prev_chain_ends_at_null_not_heap_lo :
    (mm_init 4128).map (fun s =>
        decide (s.heap_start ≠ memLo ∧ PREV_FREE s.mem s.heap_start = 0)) = some true ∧
    (0 : Nat) ≠ memLo := by
  constructor
  · decide
  · decide

/-- Claim C7 (amended): next-links are terminated by the heap's low
    boundary (as in the post-`mm_init` state), but the list head's
    previous-link is the null pointer 0: `insert_head` stores 0 into the new
    head's previous-link and makes its next-link point to the old head, and
    `remove_node` detects the head by testing the previous-link against
    null. -/
theorem free_list_terminators :
    (∀ (s : St) (bp : Nat),
        (insert_head s bp).heap_start = bp ∧
        PREV_FREE (insert_head s bp).mem bp = 0) ∧
    (∀ (s : St) (bp : Nat),
        (remove_node s bp).heap_start =
          if PREV_FREE s.mem bp ≠ 0 then s.heap_start else NEXT_FREE s.mem bp) ∧
    (mm_init 4128).map (fun s => NEXT_FREE s.mem s.heap_start) = some memLo := by
  refine ⟨fun s bp => ?_, fun s bp => ?_, by decide⟩
  · exact ⟨rfl, by simp [insert_head, PUT, PREV_FREE, w64]⟩
  · by_cases h : PREV_FREE s.mem bp ≠ 0 <;> simp [remove_node, PUT, h]

/-- Claim C8, counterexample: with a memory-source capacity of 32 bytes the
    initial reservation of `4 * WSIZE` bytes succeeds, yet `mm_init` fails
    (the second request, for the initial `CHUNKSIZE` free block, fails) —
    refuting that initialisation fails only when the initial reservation
    fails. -/
theorem mm_init_fails_though_initial_reservation_succeeds :
    (mem_sbrk (init_state 32) (4 * WSIZE)).isSome = true ∧
    (mm_init 32).isSome = false := by
  constructor
  · decide
  · decide

/-- Claim C8 (amended): `mm_init` succeeds exactly when both memory-source
    requests made during initialisation succeed — the initial `4 * WSIZE`
    byte reservation and the subsequent `CHUNKSIZE`-byte extension for the
    initial free block. -/

theorem mm_init_isSome_iff (cap : Nat) :
    (mm_init cap).isSome = true ↔
      ((mem_sbrk (init_state cap) (4 * WSIZE)).isSome = true ∧
       (mem_sbrk { init_state cap with hi := memLo + 4 * WSIZE } CHUNKSIZE).isSome = true) := by
  have e1 : (mem_sbrk (init_state cap) (4 * WSIZE)).isSome = true ↔ 32 ≤ cap := by
    rw [mem_sbrk_isSome_iff]
    simp only [init_state, WSIZE, memLo]
    omega
  have e2 : (mem_sbrk { init_state cap with hi := memLo + 4 * WSIZE } CHUNKSIZE).isSome = true
      ↔ 4128 ≤ cap := by
    rw [mem_sbrk_isSome_iff]
    simp only [init_state, WSIZE, CHUNKSIZE, memLo]
    omega
  rw [e1, e2]
  unfold mm_init
  split
  · next heq =>
      have hs := mem_sbrk_isSome_iff (init_state cap) (4 * WSIZE)
      rw [heq] at hs
      simp only [init_state, WSIZE, memLo, Option.isSome_none, Bool.false_eq_true,
        false_iff] at hs
      simp only [Option.isSome_none, Bool.false_eq_true, false_iff]
      rintro ⟨h32, h4128⟩
      exact hs (by omega)
  · next s1 p heq =>
      rw [mem_sbrk_eq] at heq
      split at heq
      · next hcond =>
          injection heq with heq1
          injection heq1 with heqs heqp
          subst heqs
          subst heqp
          simp only [init_state] at hcond ⊢
          split
          · next heq2 =>
              have h3 := extend_heap_none_bound _ _ (by norm_num [CHUNKSIZE, WSIZE])
                (by norm_num [CHUNKSIZE, WSIZE]) heq2
              simp only [PUT_hi, PUT_cap, CHUNKSIZE, WSIZE, memLo] at h3 hcond
              simp only [Option.isSome_none, Bool.false_eq_true, false_iff]
              rintro ⟨h32, h4128⟩
              exact h3 (by omega)
          · next s7 pr heq2 =>
              have h3 := extend_heap_some_bound _ _ _ (by norm_num [CHUNKSIZE, WSIZE])
                (by norm_num [CHUNKSIZE, WSIZE]) heq2
              simp only [PUT_hi, PUT_cap, CHUNKSIZE, WSIZE, memLo] at h3 hcond
              simp only [Option.isSome_some, true_iff]
              omega
      · next hcond => exact absurd heq (by simp)

/-- Claim C9 (code bug): in the reachable, fully consistent state right
    after `mm_init` — where the walk rooted at the true prologue
    (`memLo + 16`) passes every block check up to and including the epilogue
    and the prologue tag itself is well-formed — the code's `check_heap`
    nevertheless reports failure, because it roots its walk at the global
    `heap_start`, which `insert_head` has repurposed as the free-list head
    pointer, instead of at the prologue. -/
theorem check_heap_rejects_consistent_heap :
    (mm_init 4128).map (fun s => check_heap 10 s) = some false ∧
    (mm_init 4128).map (fun s => check_heap_go s.mem 10 (memLo + 16)) = some true ∧
    (mm_init 4128).map (fun s =>
        decide (GET_SIZE (s.mem (HDRP (memLo + 16))) = DSIZE ∧
          GET_ALLOC (s.mem (HDRP (memLo + 16))) = 1)) = some true := by
  refine ⟨by decide, by decide, by decide⟩


theorem flSegB_nil_iff (m : Mem) (hd pv hd2 pv2 : Nat) :
    flSegB m hd pv [] hd2 pv2 = true ↔ hd = hd2 ∧ pv = pv2 := by
  simp [flSegB]

theorem flSegB_cons_iff (m : Mem) (hd pv x hd2 pv2 : Nat) (xs : List Nat) :
    flSegB m hd pv (x :: xs) hd2 pv2 = true ↔
      hd = x ∧ m x = pv ∧ flSegB m (m (x + 8)) x xs hd2 pv2 = true := by
  simp [flSegB, and_assoc]

theorem flSegB_congr (m1 m2 : Mem) (l : List Nat) :
    ∀ (hd pv hd2 pv2 : Nat),
      (∀ x ∈ l, m1 x = m2 x ∧ m1 (x + 8) = m2 (x + 8)) →
      flSegB m1 hd pv l hd2 pv2 = flSegB m2 hd pv l hd2 pv2 := by
  induction l with
  | nil => intro hd pv hd2 pv2 _; rfl
  | cons x xs ih =>
    intro hd pv hd2 pv2 h
    have hx := h x (by simp)
    have hxs : ∀ y ∈ xs, m1 y = m2 y ∧ m1 (y + 8) = m2 (y + 8) := by
      intro y hy; exact h y (by simp [hy])
    simp only [flSegB, hx.1, hx.2, ih (m2 (x + 8)) x hd2 pv2 hxs]

theorem nodesOkB_of_mem (l : List Nat) (n : Nat) (h : nodesOkB l = true) (hn : n ∈ l) :
    n % 16 = 0 ∧ memLo + 32 ≤ n ∧ n < 2 ^ 64 := by
  simp only [nodesOkB, List.all_eq_true] at h
  have := h n hn
  simp only [Bool.and_eq_true, beq_iff_eq, Nat.ble_eq, Nat.blt_eq] at this
  exact ⟨this.1.1, this.1.2, this.2⟩

theorem find_fit_aux_spec (m : Mem) (asize : Nat) (l : List Nat) :
    ∀ (hd pv pl fuel : Nat), flSegB m hd pv l memLo pl = true → nodesOkB l = true →
      l.length < fuel →
      find_fit_aux m asize fuel hd =
        l.find? (fun n => Nat.ble asize (GET_SIZE (m (HDRP n)))) := by
  induction l with
  | nil =>
    intro hd pv pl fuel hseg hnodes hfuel
    rw [flSegB_nil_iff] at hseg
    obtain ⟨f, rfl⟩ : ∃ f, fuel = f + 1 := ⟨fuel - 1, by omega⟩
    simp [find_fit_aux, hseg.1]
  | cons x xs ih =>
    intro hd pv pl fuel hseg hnodes hfuel
    rw [flSegB_cons_iff] at hseg
    obtain ⟨heq, hpx, hrest⟩ := hseg
    rw [heq]
    have hx := nodesOkB_of_mem (x :: xs) x hnodes (by simp)
    have hxs : nodesOkB xs = true := by
      simp only [nodesOkB, List.all_eq_true] at hnodes ⊢
      intro y hy; exact hnodes y (by simp [hy])
    obtain ⟨f, rfl⟩ : ∃ f, fuel = f + 1 := ⟨fuel - 1, by omega⟩
    simp only [find_fit_aux]
    rw [if_neg (by omega)]
    by_cases hfit : asize ≤ GET_SIZE (m (HDRP x))
    · rw [if_pos hfit]
      rw [List.find?_cons_of_pos _ (by simpa using hfit)]
    · rw [if_neg hfit]
      rw [List.find?_cons_of_neg _ (by simpa using hfit)]
      exact ih (m (x + 8)) x pl f hrest hxs (by simpa using Nat.lt_of_succ_lt_succ hfuel)



theorem getLastD_append_cons (a : List Nat) (y : Nat) (ys : List Nat) :
    ∀ d, (a ++ y :: ys).getLastD d = (y :: ys).getLastD d := by
  induction a with
  | nil => intro d; rfl
  | cons z zs ih =>
    intro d
    simp only [List.cons_append, List.getLastD_cons]
    rw [ih z]
    cases ys with
    | nil => rfl
    | cons w ws =>
      simp only [List.getLastD_cons]

theorem flSegB_append_iff (m : Mem) (a c : List Nat) :
    ∀ (hd pv hd2 pv2 : Nat),
      flSegB m hd pv (a ++ c) hd2 pv2 = true ↔
        ∃ hm pm, flSegB m hd pv a hm pm = true ∧ flSegB m hm pm c hd2 pv2 = true := by
  induction a with
  | nil =>
    intro hd pv hd2 pv2
    constructor
    · intro h
      exact ⟨hd, pv, by simp [flSegB], h⟩
    · rintro ⟨hm, pm, h1, h2⟩
      rw [flSegB_nil_iff] at h1
      rw [h1.1, h1.2]
      exact h2
  | cons x xs ih =>
    intro hd pv hd2 pv2
    simp only [List.cons_append]
    rw [flSegB_cons_iff]
    constructor
    · rintro ⟨rfl, hpx, hrest⟩
      obtain ⟨hm, pm, h1, h2⟩ := (ih (m (hd + 8)) hd hd2 pv2).mp hrest
      exact ⟨hm, pm, (flSegB_cons_iff m hd pv hd hm pm xs).mpr ⟨rfl, hpx, h1⟩, h2⟩
    · rintro ⟨hm, pm, h1, h2⟩
      rw [flSegB_cons_iff] at h1
      obtain ⟨rfl, hpx, h1⟩ := h1
      exact ⟨rfl, hpx, (ih (m (hd + 8)) hd hd2 pv2).mpr ⟨hm, pm, h1, h2⟩⟩



theorem w64_small (n : Nat) (h : n < 2 ^ 64) : w64 n = n := Nat.mod_eq_of_lt h

theorem w64_zero : w64 0 = 0 := rfl

theorem PUT2_mem (s : St) (w1 v1 w2 v2 q : Nat) :
    (PUT (PUT s w1 v1) w2 v2).mem q =
      if q = w2 then w64 v2 else if q = w1 then w64 v1 else s.mem q := rfl

theorem remove_node_spec (s : St) (a b : List Nat) (bp : Nat)
    (hrep : free_list_rep s (a ++ bp :: b) = true)
    (hnodes : nodesOkB (a ++ bp :: b) = true)
    (hnodup : (a ++ bp :: b).Nodup) :
    free_list_rep (remove_node s bp) (a ++ b) = true ∧
    (remove_node s bp).hi = s.hi ∧ (remove_node s bp).cap = s.cap ∧
    (∀ q, (∀ x ∈ a ++ bp :: b, q ≠ x ∧ q ≠ x + 8) → q ≠ memLo →
      (remove_node s bp).mem q = s.mem q) := by
  have hfacts : ∀ x ∈ a ++ bp :: b, x % 16 = 0 ∧ memLo + 32 ≤ x ∧ x < 2 ^ 64 :=
    fun x hx => nodesOkB_of_mem _ x hnodes hx
  have hbp := hfacts bp (by simp)
  have hmemLo : memLo % 16 = 0 ∧ memLo < 2 ^ 64 := by constructor <;> decide
  rw [List.nodup_append] at hnodup
  obtain ⟨hna, hnb0, hdisj⟩ := hnodup
  rw [List.nodup_cons] at hnb0
  obtain ⟨hbpb, hnb⟩ := hnb0
  rw [free_list_rep] at hrep
  obtain ⟨hm, pm, hA, hB⟩ := (flSegB_append_iff s.mem a (bp :: b)
    s.heap_start 0 memLo ((a ++ bp :: b).getLastD 0)).mp hrep
  rw [flSegB_cons_iff] at hB
  obtain ⟨heqm, hpm, hBb⟩ := hB
  subst hm
  rcases List.eq_nil_or_concat a with rfl | ⟨a0, la, rfl⟩
  · -- bp is the head of the free list
    rw [flSegB_nil_iff] at hA
    obtain ⟨hhd, hpm0⟩ := hA
    have hmbp : s.mem bp = 0 := by rw [hpm, ← hpm0]
    have hrn : remove_node s bp =
        PUT { s with heap_start := s.mem (bp + 8) } (s.mem (bp + 8)) 0 := by
      rw [remove_node]
      simp [PREV_FREE, NEXT_FREE, hmbp]
    rw [hrn]
    cases b with
    | nil =>
      rw [flSegB_nil_iff] at hBb
      obtain ⟨hsucc, hplbp⟩ := hBb
      refine ⟨?_, rfl, rfl, ?_⟩
      · simp [free_list_rep, flSegB, PUT_heap_start, hsucc]
      · intro q hq hqLo
        rw [PUT_mem_other]
        rw [hsucc]
        exact hqLo
    | cons y ys =>
      rw [flSegB_cons_iff] at hBb
      obtain ⟨hsucc, hpy, hys⟩ := hBb
      have hy := hfacts y (by simp)
      refine ⟨?_, rfl, rfl, ?_⟩
      · rw [free_list_rep]
        simp only [List.nil_append, PUT_heap_start]
        rw [hsucc]
        rw [flSegB_cons_iff]
        refine ⟨rfl, by simp [PUT_mem_same, w64_zero], ?_⟩
        rw [PUT_mem_other _ _ _ _ (by omega)]
        have hcongr := flSegB_congr (PUT { s with heap_start := y } y 0).mem s.mem ys
          (s.mem (y + 8)) y memLo ((y :: ys).getLastD 0)
          (by
            intro z hz
            have hzf := hfacts z (by simp [hz])
            have hzy : z ≠ y := by
              intro hzz
              rw [List.nodup_cons] at hnb
              exact hnb.1 (hzz ▸ hz)
            exact ⟨PUT_mem_other _ _ _ _ hzy, PUT_mem_other _ _ _ _ (by omega)⟩)
        rw [hcongr]
        have hpl : ((bp :: y :: ys).getLastD 0) = ((y :: ys).getLastD 0) := by
          simp [List.getLastD_cons]
        simp only [List.nil_append] at hys
        rw [hpl] at hys
        exact hys
      · intro q hq hqLo
        rw [PUT_mem_other]
        rw [hsucc]
        exact (hq y (by simp)).1
  · -- bp has the predecessor la in the free list
    rw [List.concat_eq_append] at hna hA hnodes hfacts hdisj hBb ⊢
    obtain ⟨h1, p1, hA0, hAla⟩ := (flSegB_append_iff s.mem a0 [la]
      s.heap_start 0 bp pm).mp hA
    rw [flSegB_cons_iff] at hAla
    obtain ⟨heq1, hpla, hAla2⟩ := hAla
    subst h1
    rw [flSegB_nil_iff] at hAla2
    obtain ⟨hlab, hlapm⟩ := hAla2
    have hla := hfacts la (by simp)
    have hmbp : s.mem bp = la := by rw [hpm, ← hlapm]
    have hnaparts := hna
    rw [List.nodup_append] at hnaparts
    obtain ⟨hna0, _, hdisj0⟩ := hnaparts
    have hlanot0 : la ∉ a0 := by
      intro hmem
      exact hdisj0 hmem (by simp)
    have hlabp : la ≠ bp := by
      intro h
      exact hdisj (show la ∈ a0 ++ [la] by simp) (show la ∈ bp :: b by simp [h])
    have hrn : remove_node s bp =
        PUT (PUT s (la + 8) (s.mem (bp + 8))) (s.mem (bp + 8)) la := by
      rw [remove_node]
      simp only [PREV_FREE, NEXT_FREE, hmbp]
      rw [if_pos (by omega)]
      rw [PUT_mem_other _ _ _ _ (show bp + 8 ≠ la + 8 by omega)]
      rw [PUT_mem_other _ _ _ _ (show bp ≠ la + 8 by omega)]
      rw [hmbp]
    rw [hrn]
    cases b with
    | nil =>
      rw [flSegB_nil_iff] at hBb
      obtain ⟨hsucc, hplbp⟩ := hBb
      rw [hsucc]
      refine ⟨?_, rfl, rfl, ?_⟩
      · rw [free_list_rep]
        simp only [PUT_heap_start, List.append_nil]
        refine (flSegB_append_iff _ a0 [la] _ 0 memLo _).mpr ⟨la, p1, ?_, ?_⟩
        · rw [flSegB_congr _ s.mem a0 s.heap_start 0 la p1 ?_]
          · exact hA0
          · intro z hz
            have hzf := hfacts z (by simp [hz])
            have hzla : z ≠ la := fun h => hlanot0 (h ▸ hz)
            constructor
            · rw [PUT2_mem]
              rw [if_neg (by omega), if_neg (by omega)]
            · rw [PUT2_mem]
              rw [if_neg (by omega), if_neg (by simpa using fun h => hzla (by omega))]
        · rw [flSegB_cons_iff]
          refine ⟨rfl, ?_, ?_⟩
          · rw [PUT2_mem]
            rw [if_neg (by omega), if_neg (by omega)]
            exact hpla
          · rw [flSegB_nil_iff]
            constructor
            · rw [PUT2_mem]
              rw [if_neg (by omega), if_pos rfl]
              exact w64_small _ hmemLo.2
            · rw [getLastD_append_cons a0 la [] 0]
              simp [List.getLastD_cons]
      · intro q hq hqLo
        rw [PUT2_mem]
        rw [if_neg hqLo, if_neg (hq la (by simp)).2]
    | cons y ys =>
      rw [flSegB_cons_iff] at hBb
      obtain ⟨hsucc, hpy, hys⟩ := hBb
      have hy := hfacts y (by simp)
      have hyla : y ≠ la := by
        intro h
        exact hdisj (show y ∈ a0 ++ [la] by simp [h]) (show y ∈ bp :: y :: ys by simp)
      rw [hsucc]
      refine ⟨?_, rfl, rfl, ?_⟩
      · rw [free_list_rep]
        simp only [PUT_heap_start, List.append_assoc, List.singleton_append]
        refine (flSegB_append_iff _ a0 (la :: y :: ys) _ 0 memLo _).mpr
          ⟨la, p1, ?_, ?_⟩
        · rw [flSegB_congr _ s.mem a0 s.heap_start 0 la p1 ?_]
          · exact hA0
          · intro z hz
            have hzf := hfacts z (by simp [hz])
            have hzla : z ≠ la := fun h => hlanot0 (h ▸ hz)
            have hzy : z ≠ y := by
              intro h
              exact hdisj (show z ∈ a0 ++ [la] by simp [hz]) (show z ∈ bp :: y :: ys by simp [h])
            constructor
            · rw [PUT2_mem]
              rw [if_neg hzy, if_neg (by omega)]
            · rw [PUT2_mem]
              rw [if_neg (by omega), if_neg (by simpa using fun h => hzla (by omega))]
        · rw [flSegB_cons_iff]
          refine ⟨rfl, ?_, ?_⟩
          · rw [PUT2_mem]
            rw [if_neg hyla.symm, if_neg (by omega)]
            exact hpla
          · rw [PUT2_mem]
            rw [if_neg (by omega), if_pos rfl]
            rw [w64_small _ hy.2.2]
            rw [flSegB_cons_iff]
            refine ⟨rfl, ?_, ?_⟩
            · rw [PUT2_mem]
              rw [if_pos rfl]
              exact w64_small _ hla.2.2
            · have hcongr := flSegB_congr (PUT (PUT s (la + 8) y) y la).mem s.mem ys
                (s.mem (y + 8)) y memLo ((y :: ys).getLastD 0)
                (by
                  intro z hz
                  have hzf := hfacts z (by simp [hz])
                  have hzy : z ≠ y := by
                    intro hzz
                    rw [List.nodup_cons] at hnb
                    exact hnb.1 (hzz ▸ hz)
                  have hzla : z ≠ la := by
                    intro h
                    exact hdisj (show z ∈ a0 ++ [la] by simp [h])
                      (show z ∈ bp :: y :: ys by simp [hz])
                  constructor
                  · rw [PUT2_mem]
                    rw [if_neg hzy, if_neg (by omega)]
                  · rw [PUT2_mem]
                    rw [if_neg (by omega), if_neg (by simpa using fun h => hzla (by omega))])
              have hput : (PUT (PUT s (la + 8) y) y la).mem (y + 8) = s.mem (y + 8) := by
                rw [PUT2_mem]
                rw [if_neg (by omega), if_neg (by simpa using fun h => hyla (by omega))]
              have hgl : (a0 ++ la :: y :: ys).getLastD 0 = (y :: ys).getLastD 0 := by
                rw [getLastD_append_cons a0 la (y :: ys) 0]
                simp [List.getLastD_cons]
              rw [hgl, hput, hcongr]
              have hpl2 : ((a0 ++ [la]) ++ bp :: y :: ys).getLastD 0 =
                  (y :: ys).getLastD 0 := by
                rw [getLastD_append_cons (a0 ++ [la]) bp (y :: ys) 0]
                simp [List.getLastD_cons]
              rw [hpl2] at hys
              exact hys
      · intro q hq hqLo
        rw [PUT2_mem]
        rw [if_neg (hq y (by simp)).1, if_neg (hq la (by simp)).2]


theorem PUT3_mem (s : St) (w1 v1 w2 v2 w3 v3 q : Nat) :
    (PUT (PUT (PUT s w1 v1) w2 v2) w3 v3).mem q =
      if q = w3 then w64 v3 else if q = w2 then w64 v2
      else if q = w1 then w64 v1 else s.mem q := rfl

theorem insert_head_spec (s : St) (l : List Nat) (bp : Nat)
    (hrep : free_list_rep s l = true)
    (hnodes : nodesOkB l = true)
    (hnodup : l.Nodup)
    (hbp16 : bp % 16 = 0) (hbplo : memLo + 32 ≤ bp) (hbp64 : bp < 2 ^ 64)
    (hbpl : bp ∉ l) :
    free_list_rep (insert_head s bp) (bp :: l) = true ∧
    (insert_head s bp).hi = s.hi ∧ (insert_head s bp).cap = s.cap ∧
    (insert_head s bp).heap_start = bp ∧
    (∀ q, q ≠ bp → q ≠ bp + 8 → q ≠ s.heap_start →
      (insert_head s bp).mem q = s.mem q) := by
  have hmemLo : memLo % 16 = 0 ∧ memLo < 2 ^ 64 := by constructor <;> decide
  have hins : insert_head s bp =
      { PUT (PUT (PUT s (bp + 8) s.heap_start) s.heap_start bp) bp 0
        with heap_start := bp } := rfl
  refine ⟨?_, rfl, rfl, rfl, ?_⟩
  · rw [free_list_rep]
    rw [hins]
    rw [flSegB_cons_iff]
    refine ⟨rfl, ?_, ?_⟩
    · show (PUT (PUT (PUT s (bp + 8) s.heap_start) s.heap_start bp) bp 0).mem bp = 0
      rw [PUT3_mem, if_pos rfl]
      exact w64_zero
    · rw [free_list_rep] at hrep
      cases l with
      | nil =>
        rw [flSegB_nil_iff] at hrep
        rw [hrep.1]
        show flSegB _ ((PUT (PUT (PUT s (bp + 8) memLo) memLo bp) bp 0).mem
          (bp + 8)) bp [] memLo ((bp :: []).getLastD 0) = true
        rw [PUT3_mem, if_neg (by omega), if_neg (by omega), if_pos rfl]
        rw [flSegB_nil_iff]
        exact ⟨w64_small _ hmemLo.2, by simp [List.getLastD_cons]⟩
      | cons x xs =>
        rw [flSegB_cons_iff] at hrep
        obtain ⟨hhd, hpx, hxs⟩ := hrep
        have hx := nodesOkB_of_mem (x :: xs) x hnodes (by simp)
        have hbpx : bp ≠ x := fun h => hbpl (by simp [h])
        rw [hhd]
        show flSegB _ ((PUT (PUT (PUT s (bp + 8) x) x bp) bp 0).mem
          (bp + 8)) bp (x :: xs) memLo ((bp :: x :: xs).getLastD 0) = true
        rw [PUT3_mem, if_neg (by omega), if_neg (by omega), if_pos rfl]
        rw [w64_small _ hx.2.2]
        rw [flSegB_cons_iff]
        refine ⟨rfl, ?_, ?_⟩
        · rw [PUT3_mem, if_neg (Ne.symm hbpx), if_pos rfl]
          exact w64_small _ hbp64
        · have hput : (PUT (PUT (PUT s (bp + 8) x) x bp) bp 0).mem (x + 8) =
              s.mem (x + 8) := by
            rw [PUT3_mem, if_neg (by omega), if_neg (by omega), if_neg (by omega)]
          rw [hput]
          have hgl : ((bp :: x :: xs).getLastD 0) = ((x :: xs).getLastD 0) := by
            simp [List.getLastD_cons]
          rw [hgl]
          have hcongr := flSegB_congr
            (PUT (PUT (PUT s (bp + 8) x) x bp) bp 0).mem s.mem xs
            (s.mem (x + 8)) x memLo ((x :: xs).getLastD 0)
            (by
              intro z hz
              have hzf := nodesOkB_of_mem (x :: xs) z hnodes (by simp [hz])
              have hzbp : z ≠ bp := fun h => hbpl (h ▸ (by simp [hz]))
              have hzx : z ≠ x := by
                intro h
                rw [List.nodup_cons] at hnodup
                exact hnodup.1 (h ▸ hz)
              constructor
              · rw [PUT3_mem, if_neg hzbp, if_neg hzx, if_neg (by omega)]
              · rw [PUT3_mem, if_neg (by omega), if_neg (by omega),
                  if_neg (by simpa using fun h => hzbp (by omega))])
          rw [hcongr]
          exact hxs
  · intro q hq1 hq2 hq3
    rw [hins]
    show (PUT (PUT (PUT s (bp + 8) s.heap_start) s.heap_start bp) bp 0).mem q = s.mem q
    rw [PUT3_mem, if_neg hq1, if_neg hq3, if_neg hq2]

/-- Claim C5: for every requested size, `find_fit` scans the free list
    linearly from the head toward the terminator (`memLo`) and returns the
    first block in list order whose total size is at least the requested
    size; if no block in the list is large enough (every node's size is
    below the request) it returns the no-fit result `none` (NULL). -/
theorem find_fit_first_fit (s : St) (l : List Nat) (asize fuel : Nat)
    (hrep : free_list_rep s l = true) (hnodes : nodesOkB l = true)
    (hfuel : l.length < fuel) :
    find_fit fuel s asize =
      l.find? (fun n => Nat.ble asize (GET_SIZE (s.mem (HDRP n)))) ∧
    ((∀ n ∈ l, GET_SIZE (s.mem (HDRP n)) < asize) → find_fit fuel s asize = none) := by
  have h := find_fit_aux_spec s.mem asize l s.heap_start 0 (l.getLastD 0) fuel hrep
    hnodes hfuel
  refine ⟨h, fun hnone => ?_⟩
  show find_fit_aux s.mem asize fuel s.heap_start = none
  rw [h]
  rw [List.find?_eq_none]
  intro n hn
  have hlt := hnone n hn
  simp only [Nat.ble_eq]
  omega

theorem GET_SIZE_add (sz a : Nat) (hsz : 16 ∣ sz) (ha : a < 16) :
    GET_SIZE (sz + a) = sz := by
  obtain ⟨k, rfl⟩ := hsz
  rw [GET_SIZE]
  omega

theorem GET_ALLOC_add (sz a : Nat) (hsz : 16 ∣ sz) (ha : a < 2) :
    GET_ALLOC (sz + a) = a := by
  obtain ⟨k, rfl⟩ := hsz
  rw [GET_ALLOC]
  omega

theorem sub64_small (x y : Nat) (hyx : y ≤ x) (hx : x < 2 ^ 64) :
    sub64 x y = x - y := by
  rw [sub64]
  have : y % 2 ^ 64 = y := Nat.mod_eq_of_lt (by omega)
  rw [this]
  omega

theorem toInt32_small (n : Nat) (h : n < 2 ^ 31) : toInt32 n = (n : Int) := by
  rw [toInt32]
  rw [if_pos (by rw [Nat.mod_eq_of_lt (by omega)]; exact_mod_cast h)]
  rw [Nat.mod_eq_of_lt (by omega)]

theorem GET_SIZE_self (sz : Nat) (h : 16 ∣ sz) : GET_SIZE sz = sz := by
  obtain ⟨k, rfl⟩ := h
  rw [GET_SIZE]
  omega

theorem place_eq_whole (s : St) (bp asize sb : Nat)
    (hhdr : s.mem (HDRP bp) = sb)
    (hsb16 : 16 ∣ sb) (hasize : asize ≤ sb) (hsb64 : sb < 2 ^ 64)
    (hrem : sb - asize < 2 ^ 31) (hcase : sb - asize < 32) :
    place s bp asize =
      remove_node (PUT (PUT s (HDRP bp) (PACK sb 1)) (bp + sb - 16) (PACK sb 1)) bp := by
  have hfsl : toInt32 (sub64 (GET_SIZE (s.mem (HDRP bp))) asize) = ((sb - asize : Nat) : Int) := by
    rw [hhdr, GET_SIZE_self sb hsb16, sub64_small _ _ hasize hsb64, toInt32_small _ hrem]
  rw [place]
  rw [hfsl]
  rw [if_pos (show ((sb - asize : Nat) : Int) < (MINIMUMSIZE : Int) by
    rw [MINIMUMSIZE]; exact_mod_cast hcase)]
  rw [hhdr, GET_SIZE_self sb hsb16]
  have h1 : (PUT s (HDRP bp) (PACK sb 1)).mem (HDRP bp) = sb + 1 := by
    rw [PUT_mem_same]; exact w64_small _ (by rw [PACK]; omega)
  simp only [FTRP]
  rw [h1]
  rw [GET_SIZE_add sb 1 hsb16 (by omega)]

theorem toNat_emod_pow64 (n : Nat) (h : n < 2 ^ 64) :
    (((n : Nat) : Int) % (2 ^ 64 : Int)).toNat = n := by
  rw [Int.emod_eq_of_lt (by positivity) (by exact_mod_cast h)]
  exact Int.toNat_natCast n

theorem place_eq_split (s : St) (bp asize sb : Nat)
    (hhdr : s.mem (HDRP bp) = sb)
    (hsb16 : 16 ∣ sb) (hasize16 : 16 ∣ asize) (hasize : asize ≤ sb)
    (hasize64 : asize < 2 ^ 64) (hsb64 : sb < 2 ^ 64)
    (hrem : sb - asize < 2 ^ 31) (hcase : ¬ (sb - asize < 32))
    (hframe : (remove_node (PUT (PUT s (HDRP bp) (PACK asize 1)) (bp + asize - 16)
        (PACK asize 1)) bp).mem (HDRP bp) = PACK asize 1) :
    place s bp asize =
      insert_head
        (PUT (PUT (remove_node (PUT (PUT s (HDRP bp) (PACK asize 1))
              (bp + asize - 16) (PACK asize 1)) bp)
            (HDRP (bp + asize)) (PACK (sb - asize) 0))
          (bp + sb - 16) (PACK (sb - asize) 0))
        (bp + asize) := by
  have hfsl : toInt32 (sub64 (GET_SIZE (s.mem (HDRP bp))) asize)
      = ((sb - asize : Nat) : Int) := by
    rw [hhdr, GET_SIZE_self sb hsb16, sub64_small _ _ hasize hsb64, toInt32_small _ hrem]
  rw [place]
  rw [hfsl]
  rw [if_neg (show ¬ ((sb - asize : Nat) : Int) < (MINIMUMSIZE : Int) by
    rw [MINIMUMSIZE]; exact_mod_cast hcase)]
  have hftr1 : FTRP (PUT s (HDRP bp) (PACK asize 1)).mem bp = bp + asize - 16 := by
    simp only [FTRP]
    rw [PUT_mem_same]
    rw [show w64 (PACK asize 1) = asize + 1 from by
      rw [show PACK asize 1 = asize + 1 from rfl]; exact w64_small _ (by omega)]
    rw [GET_SIZE_add asize 1 hasize16 (by omega)]
  have hnext : NEXT_BLKP (remove_node (PUT (PUT s (HDRP bp) (PACK asize 1))
      (bp + asize - 16) (PACK asize 1)) bp).mem bp = bp + asize := by
    simp only [NEXT_BLKP]
    rw [hframe]
    rw [show PACK asize 1 = asize + 1 from rfl]
    rw [GET_SIZE_add asize 1 hasize16 (by omega)]
  have htN : (((sb - asize : Nat) : Int) % (2 ^ 64 : Int)).toNat = sb - asize :=
    toNat_emod_pow64 _ (by omega)
  have hftr2 : FTRP (PUT (remove_node (PUT (PUT s (HDRP bp) (PACK asize 1))
        (bp + asize - 16) (PACK asize 1)) bp)
      (HDRP (bp + asize)) (PACK (sb - asize) 0)).mem (bp + asize) = bp + sb - 16 := by
    simp only [FTRP]
    rw [show HDRP (bp + asize) = bp + asize - 8 from rfl]
    rw [PUT_mem_same]
    rw [show w64 (PACK (sb - asize) 0) = sb - asize from by
      rw [show PACK (sb - asize) 0 = sb - asize from by simp [PACK]]
      exact w64_small _ (by omega)]
    rw [GET_SIZE_self (sb - asize) (Nat.dvd_sub' hsb16 hasize16)]
    omega
  simp only [hftr1, hnext, htN, hftr2]

theorem sepB_of_mem (l ts : List Nat) (n t : Nat) (h : sepB l ts = true)
    (hn : n ∈ l) (ht : t ∈ ts) : n ≠ t ∧ n + 8 ≠ t := by
  simp only [sepB, List.all_eq_true] at h
  have h2 := h n hn t ht
  simp only [Bool.and_eq_true, bne_iff_ne] at h2
  exact h2

theorem free_list_rep_PUT (s : St) (l : List Nat) (p v : Nat)
    (hrep : free_list_rep s l = true)
    (hp : ∀ x ∈ l, p ≠ x ∧ p ≠ x + 8) :
    free_list_rep (PUT s p v) l = true := by
  rw [free_list_rep] at hrep ⊢
  rw [PUT_heap_start]
  rw [flSegB_congr (PUT s p v).mem s.mem l s.heap_start 0 memLo (l.getLastD 0)
    (fun x hx => ⟨PUT_mem_other _ _ _ _ (fun h2 => ((hp x hx).1 h2.symm)),
      PUT_mem_other _ _ _ _ (fun h2 => ((hp x hx).2 h2.symm))⟩)]
  exact hrep

theorem rep_head_cases (s : St) (l : List Nat) (h : free_list_rep s l = true) :
    s.heap_start = memLo ∨ s.heap_start ∈ l := by
  cases l with
  | nil =>
    left
    rw [free_list_rep, flSegB_nil_iff] at h
    exact h.1
  | cons x xs =>
    right
    rw [free_list_rep, flSegB_cons_iff] at h
    simp [h.1]

theorem place_spec (s : St) (a b : List Nat) (bp asize sb : Nat)
    (hrep : free_list_rep s (a ++ bp :: b) = true)
    (hnodes : nodesOkB (a ++ bp :: b) = true)
    (hnodup : (a ++ bp :: b).Nodup)
    (hhdr : s.mem (HDRP bp) = sb)
    (hsb16 : 16 ∣ sb)
    (hasize16 : 16 ∣ asize) (hasize32 : 32 ≤ asize) (hasize : asize ≤ sb)
    (hrem : sb - asize < 2 ^ 31)
    (hbound : bp + sb < 2 ^ 64)
    (hnb : bp + asize ∉ a ++ bp :: b)
    (hsep : sepB (a ++ bp :: b) [bp - 8, bp + asize - 16, bp + asize - 8, bp + sb - 16]
      = true) :
    (place s bp asize).hi = s.hi ∧ (place s bp asize).cap = s.cap ∧
    (if sb - asize < 32 then
      (place s bp asize).mem (HDRP bp) = PACK sb 1 ∧
      (place s bp asize).mem (bp + sb - 16) = PACK sb 1 ∧
      free_list_rep (place s bp asize) (a ++ b) = true
    else
      (place s bp asize).mem (HDRP bp) = PACK asize 1 ∧
      (place s bp asize).mem (bp + asize - 16) = PACK asize 1 ∧
      (place s bp asize).mem (HDRP (bp + asize)) = PACK (sb - asize) 0 ∧
      (place s bp asize).mem (bp + sb - 16) = PACK (sb - asize) 0 ∧
      free_list_rep (place s bp asize) ((bp + asize) :: (a ++ b)) = true ∧
      (place s bp asize).heap_start = bp + asize) := by
  have hbp := nodesOkB_of_mem _ bp hnodes (by simp)
  have hsepf : ∀ n ∈ a ++ bp :: b, ∀ t ∈ [bp - 8, bp + asize - 16, bp + asize - 8,
      bp + sb - 16], n ≠ t ∧ n + 8 ≠ t :=
    fun n hn t ht => sepB_of_mem _ _ n t hsep hn ht
  have hsub : ∀ x ∈ a ++ b, x ∈ a ++ bp :: b := by
    intro x hx
    simp only [List.mem_append, List.mem_cons] at hx ⊢
    tauto
  by_cases hcase : sb - asize < 32
  · rw [place_eq_whole s bp asize sb hhdr hsb16 hasize (by omega) hrem hcase]
    have hrep2 : free_list_rep (PUT (PUT s (HDRP bp) (PACK sb 1)) (bp + sb - 16)
        (PACK sb 1)) (a ++ bp :: b) = true := by
      apply free_list_rep_PUT
      · apply free_list_rep_PUT _ _ _ _ hrep
        intro x hx
        have h1 := hsepf x hx (bp - 8) (by simp)
        rw [show HDRP bp = bp - 8 from rfl]
        omega
      · intro x hx
        have h1 := hsepf x hx (bp + sb - 16) (by simp)
        omega
    obtain ⟨hrepR, hhiR, hcapR, hframeR⟩ := remove_node_spec _ a b bp hrep2 hnodes hnodup
    have hq1 : ∀ x ∈ a ++ bp :: b, HDRP bp ≠ x ∧ HDRP bp ≠ x + 8 := by
      intro x hx
      have h1 := hsepf x hx (bp - 8) (by simp)
      rw [show HDRP bp = bp - 8 from rfl]
      omega
    have hq2 : ∀ x ∈ a ++ bp :: b, bp + sb - 16 ≠ x ∧ bp + sb - 16 ≠ x + 8 := by
      intro x hx
      have h1 := hsepf x hx (bp + sb - 16) (by simp)
      omega
    refine ⟨by rw [hhiR, PUT_hi, PUT_hi], by rw [hcapR, PUT_cap, PUT_cap], ?_⟩
    rw [if_pos hcase]
    refine ⟨?_, ?_, hrepR⟩
    · rw [hframeR (HDRP bp) hq1 (by rw [show HDRP bp = bp - 8 from rfl]; omega)]
      rw [PUT_mem_other _ _ _ _ (by rw [show HDRP bp = bp - 8 from rfl]; omega)]
      rw [PUT_mem_same]
      exact w64_small _ (by rw [show PACK sb 1 = sb + 1 from rfl]; omega)
    · rw [hframeR (bp + sb - 16) hq2 (by omega)]
      rw [PUT_mem_same]
      exact w64_small _ (by rw [show PACK sb 1 = sb + 1 from rfl]; omega)
  · -- split case
    have hrep2 : free_list_rep (PUT (PUT s (HDRP bp) (PACK asize 1)) (bp + asize - 16)
        (PACK asize 1)) (a ++ bp :: b) = true := by
      apply free_list_rep_PUT
      · apply free_list_rep_PUT _ _ _ _ hrep
        intro x hx
        have h1 := hsepf x hx (bp - 8) (by simp)
        rw [show HDRP bp = bp - 8 from rfl]
        omega
      · intro x hx
        have h1 := hsepf x hx (bp + asize - 16) (by simp)
        omega
    obtain ⟨hrepR, hhiR, hcapR, hframeR⟩ := remove_node_spec _ a b bp hrep2 hnodes hnodup
    have hq1 : ∀ x ∈ a ++ bp :: b, HDRP bp ≠ x ∧ HDRP bp ≠ x + 8 := by
      intro x hx
      have h1 := hsepf x hx (bp - 8) (by simp)
      rw [show HDRP bp = bp - 8 from rfl]
      omega
    have hframe : (remove_node (PUT (PUT s (HDRP bp) (PACK asize 1)) (bp + asize - 16)
        (PACK asize 1)) bp).mem (HDRP bp) = PACK asize 1 := by
      rw [hframeR (HDRP bp) hq1 (by rw [show HDRP bp = bp - 8 from rfl]; omega)]
      rw [PUT_mem_other _ _ _ _ (by rw [show HDRP bp = bp - 8 from rfl]; omega)]
      rw [PUT_mem_same]
      exact w64_small _ (by rw [show PACK asize 1 = asize + 1 from rfl]; omega)
    rw [place_eq_split s bp asize sb hhdr hsb16 hasize16 hasize (by omega) (by omega)
      hrem hcase hframe]
    -- the state after the front tags, removal and back tags
    have hnodesab : nodesOkB (a ++ b) = true := by
      simp only [nodesOkB, List.all_eq_true] at hnodes ⊢
      intro x hx
      exact hnodes x (hsub x hx)
    have hnodupab : (a ++ b).Nodup := by
      rw [List.nodup_append] at hnodup ⊢
      rw [List.nodup_cons] at hnodup
      exact ⟨hnodup.1, hnodup.2.1.2, fun x hx1 hx2 => hnodup.2.2 hx1 (by simp [hx2])⟩
    have hrep4 : free_list_rep
        (PUT (PUT (remove_node (PUT (PUT s (HDRP bp) (PACK asize 1))
            (bp + asize - 16) (PACK asize 1)) bp)
          (HDRP (bp + asize)) (PACK (sb - asize) 0))
          (bp + sb - 16) (PACK (sb - asize) 0)) (a ++ b) = true := by
      apply free_list_rep_PUT
      · apply free_list_rep_PUT _ _ _ _ hrepR
        intro x hx
        have h1 := hsepf x (hsub x hx) (bp + asize - 8) (by simp)
        rw [show HDRP (bp + asize) = bp + asize - 8 from rfl]
        omega
      · intro x hx
        have h1 := hsepf x (hsub x hx) (bp + sb - 16) (by simp)
        omega
    obtain ⟨hrepI, hhiI, hcapI, hhsI, hframeI⟩ := insert_head_spec _ (a ++ b)
      (bp + asize) hrep4 hnodesab hnodupab (by omega) (by omega) (by omega)
      (fun hmem => hnb (hsub _ hmem))
    have hhs4 : (PUT (PUT (remove_node (PUT (PUT s (HDRP bp) (PACK asize 1))
          (bp + asize - 16) (PACK asize 1)) bp)
        (HDRP (bp + asize)) (PACK (sb - asize) 0))
        (bp + sb - 16) (PACK (sb - asize) 0)).heap_start = memLo ∨
        (PUT (PUT (remove_node (PUT (PUT s (HDRP bp) (PACK asize 1))
          (bp + asize - 16) (PACK asize 1)) bp)
        (HDRP (bp + asize)) (PACK (sb - asize) 0))
        (bp + sb - 16) (PACK (sb - asize) 0)).heap_start ∈ a ++ b :=
      rep_head_cases _ _ hrep4
    refine ⟨by rw [hhiI, PUT_hi, PUT_hi, hhiR, PUT_hi, PUT_hi],
      by rw [hcapI, PUT_cap, PUT_cap, hcapR, PUT_cap, PUT_cap], ?_⟩
    rw [if_neg hcase]
    have hms : ∀ q, q ≠ bp + asize → q ≠ bp + asize + 8 →
        (q = memLo → False) →
        (∀ x ∈ a ++ b, q ≠ x ∧ q ≠ x + 8) →
        q ≠ HDRP (bp + asize) → q ≠ bp + sb - 16 →
        (insert_head (PUT (PUT (remove_node (PUT (PUT s (HDRP bp) (PACK asize 1))
            (bp + asize - 16) (PACK asize 1)) bp)
          (HDRP (bp + asize)) (PACK (sb - asize) 0))
          (bp + sb - 16) (PACK (sb - asize) 0)) (bp + asize)).mem q =
        (remove_node (PUT (PUT s (HDRP bp) (PACK asize 1))
            (bp + asize - 16) (PACK asize 1)) bp).mem q := by
      intro q hq1 hq2 hq3 hq4 hq5 hq6
      rw [hframeI q hq1 hq2 ?_]
      · rw [PUT_mem_other _ _ _ _ hq6, PUT_mem_other _ _ _ _ hq5]
      · rcases hhs4 with h | h
        · rw [h]; intro hc; exact hq3 hc
        · exact (hq4 _ h).1
    refine ⟨?_, ?_, ?_, ?_, ?_, ?_⟩
    · rw [hms (HDRP bp) (by rw [show HDRP bp = bp - 8 from rfl]; omega)
        (by rw [show HDRP bp = bp - 8 from rfl]; omega)
        (by rw [show HDRP bp = bp - 8 from rfl]; omega)
        (fun x hx => by
          have h1 := hsepf x (hsub x hx) (bp - 8) (by simp)
          rw [show HDRP bp = bp - 8 from rfl]
          omega)
        (by
          rw [show HDRP bp = bp - 8 from rfl]
          rw [show HDRP (bp + asize) = bp + asize - 8 from rfl]
          omega)
        (by rw [show HDRP bp = bp - 8 from rfl]; omega)]
      exact hframe
    · rw [hms (bp + asize - 16) (by omega) (by omega) (by omega)
        (fun x hx => by
          have h1 := hsepf x (hsub x hx) (bp + asize - 16) (by simp)
          omega)
        (by rw [show HDRP (bp + asize) = bp + asize - 8 from rfl]; omega)
        (by omega)]
      rw [hframeR (bp + asize - 16) (fun x hx => by
          have h1 := hsepf x hx (bp + asize - 16) (by simp)
          omega) (by omega)]
      rw [PUT_mem_same]
      exact w64_small _ (by rw [show PACK asize 1 = asize + 1 from rfl]; omega)
    · rw [hframeI (HDRP (bp + asize))
        (by rw [show HDRP (bp + asize) = bp + asize - 8 from rfl]; omega)
        (by rw [show HDRP (bp + asize) = bp + asize - 8 from rfl]; omega) ?_]
      · rw [PUT_mem_other _ _ _ _ (by
          rw [show HDRP (bp + asize) = bp + asize - 8 from rfl]
          omega)]
        rw [PUT_mem_same]
        refine w64_small _ ?_
        rw [show PACK (sb - asize) 0 = sb - asize + 0 from rfl]
        omega
      · rcases hhs4 with h | h
        · rw [h]
          rw [show HDRP (bp + asize) = bp + asize - 8 from rfl]
          omega
        · have h1 := hsepf _ (hsub _ h) (bp + asize - 8) (by simp)
          exact fun hc => h1.1 (by rw [← hc]; exact rfl)
    · rw [hframeI (bp + sb - 16) (by omega) (by omega) ?_]
      · rw [PUT_mem_same]
        refine w64_small _ ?_
        rw [show PACK (sb - asize) 0 = sb - asize + 0 from rfl]
        omega
      · rcases hhs4 with h | h
        · rw [h]; omega
        · have h1 := hsepf _ (hsub _ h) (bp + sb - 16) (by simp)
          omega
    · exact hrepI
    · exact hhsI

/-- Claim C5, witness: the concrete heap `placeStA` (one 48-byte free block
    at `memLo + 32`) satisfies the hypotheses of `find_fit_first_fit`, and
    `find_fit` returns the first (only) fitting node for a request of 48. -/
theorem find_fit_first_fit_witness :
    (free_list_rep placeStA [memLo + 32] = true ∧ nodesOkB [memLo + 32] = true ∧
      ([memLo + 32] : List Nat).length < 10) ∧
    (find_fit 10 placeStA 48 =
      [memLo + 32].find? (fun n => Nat.ble 48 (GET_SIZE (placeStA.mem (HDRP n)))) ∧
    ((∀ n ∈ [memLo + 32], GET_SIZE (placeStA.mem (HDRP n)) < 48) →
      find_fit 10 placeStA 48 = none)) :=
  ⟨⟨by decide, by decide, by decide⟩,
    find_fit_first_fit placeStA [memLo + 32] 48 10 (by decide) (by decide) (by decide)⟩

/-- Claim C2, counterexample: the claim quantifies over every required size
    `asize` with `asize ≤ s`, but it fails at `asize = 0` (reachable from
    the allocate path via the adjusted-size overflow): on a free 48-byte
    block the remainder `48 - 0 = 48` is not below the minimum block size,
    so the claim requires a split with an allocated front block, yet after
    `place` the block at `bp` is still free (allocated flag 0).  It also
    fails at `s = 2 ^ 32 + 32`, `asize = 32`: the remainder `2 ^ 32` is not
    below the minimum block size, yet the `int`-truncated remainder is 0,
    so the code allocates the whole block (size `2 ^ 32 + 32`, not 32). -/
theorem place_claim_counterexample :
    (GET_ALLOC ((place placeStA (memLo + 32) 0).mem (HDRP (memLo + 32))) = 0 ∧
      ¬ ((48 : Nat) - 0 < 32)) ∧
    (GET_ALLOC ((place placeStB (memLo + 32) 32).mem (HDRP (memLo + 32))) = 1 ∧
      GET_SIZE ((place placeStB (memLo + 32) 32).mem (HDRP (memLo + 32))) ≠ 32 ∧
      ¬ ((2 ^ 32 + 32 : Nat) - 32 < 32)) := by
  refine ⟨⟨by decide, by decide⟩, by decide, by decide, by decide⟩

/-- Claim C2 (amended): for every free block of size `sb` and every
    required size `asize` that is a multiple of 16, at least `MINIMUMSIZE`
    and at most `sb`, with `sb - asize` within the `int` range of the
    remainder computation, `place` either allocates the whole block at its
    original size `sb` and removes it from the free list (when `sb - asize`
    is below the minimum block size), or splits it into an allocated front
    block of exactly `asize` bytes and a free back block of `sb - asize`
    bytes inserted at the free-list head; in both outcomes the bytes
    covered equal the original block size (`asize + (sb - asize) = sb`). -/
theorem place_whole_or_split (s : St) (a b : List Nat) (bp asize sb : Nat)
    (hrep : free_list_rep s (a ++ bp :: b) = true)
    (hnodes : nodesOkB (a ++ bp :: b) = true)
    (hnodup : (a ++ bp :: b).Nodup)
    (hhdr : s.mem (HDRP bp) = sb)
    (hsb16 : 16 ∣ sb)
    (hasize16 : 16 ∣ asize) (hasize32 : 32 ≤ asize) (hasize : asize ≤ sb)
    (hrem : sb - asize < 2 ^ 31)
    (hbound : bp + sb < 2 ^ 64)
    (hnb : bp + asize ∉ a ++ bp :: b)
    (hsep : sepB (a ++ bp :: b) [bp - 8, bp + asize - 16, bp + asize - 8, bp + sb - 16]
      = true) :
    asize + (sb - asize) = sb ∧
    (if sb - asize < 32 then
      (place s bp asize).mem (HDRP bp) = PACK sb 1 ∧
      (place s bp asize).mem (bp + sb - 16) = PACK sb 1 ∧
      free_list_rep (place s bp asize) (a ++ b) = true
    else
      (place s bp asize).mem (HDRP bp) = PACK asize 1 ∧
      (place s bp asize).mem (bp + asize - 16) = PACK asize 1 ∧
      (place s bp asize).mem (HDRP (bp + asize)) = PACK (sb - asize) 0 ∧
      (place s bp asize).mem (bp + sb - 16) = PACK (sb - asize) 0 ∧
      free_list_rep (place s bp asize) ((bp + asize) :: (a ++ b)) = true ∧
      (place s bp asize).heap_start = bp + asize) :=
  ⟨by omega, (place_spec s a b bp asize sb hrep hnodes hnodup hhdr hsb16 hasize16
    hasize32 hasize hrem hbound hnb hsep).2.2⟩

/-- Claim C2, witness: on the concrete heap `placeStA` with its 48-byte
    free block and `asize = 32` the hypotheses hold and the whole-block
    outcome of `place_whole_or_split` follows (remainder 16 is below the
    minimum block size). -/
theorem place_whole_or_split_witness :
    (free_list_rep placeStA ([] ++ (memLo + 32) :: []) = true ∧
      placeStA.mem (HDRP (memLo + 32)) = 48 ∧
      (32 : Nat) ≤ 48 ∧
      memLo + 32 + 32 ∉ ([] ++ (memLo + 32) :: [] : List Nat)) ∧
    (32 + (48 - 32) = 48 ∧
    (if (48 : Nat) - 32 < 32 then
      (place placeStA (memLo + 32) 32).mem (HDRP (memLo + 32)) = PACK 48 1 ∧
      (place placeStA (memLo + 32) 32).mem (memLo + 32 + 48 - 16) = PACK 48 1 ∧
      free_list_rep (place placeStA (memLo + 32) 32) ([] ++ []) = true
    else
      (place placeStA (memLo + 32) 32).mem (HDRP (memLo + 32)) = PACK 32 1 ∧
      (place placeStA (memLo + 32) 32).mem (memLo + 32 + 32 - 16) = PACK 32 1 ∧
      (place placeStA (memLo + 32) 32).mem (HDRP (memLo + 32 + 32)) = PACK (48 - 32) 0 ∧
      (place placeStA (memLo + 32) 32).mem (memLo + 32 + 48 - 16) = PACK (48 - 32) 0 ∧
      free_list_rep (place placeStA (memLo + 32) 32) ((memLo + 32 + 32) :: ([] ++ []))
        = true ∧
      (place placeStA (memLo + 32) 32).heap_start = memLo + 32 + 32)) :=
  ⟨⟨by decide, by decide, by decide, by decide⟩,
    place_whole_or_split placeStA [] [] (memLo + 32) 32 48 (by decide) (by decide)
      (by decide) (by decide) (by decide) (by decide) (by decide) (by decide)
      (by decide) (by decide) (by decide) (by decide)⟩

theorem NEXT_BLKP_eq (s : St) (bp sb : Nat) (hbh : s.mem (HDRP bp) = sb)
    (hsb16 : 16 ∣ sb) : NEXT_BLKP s.mem bp = bp + sb := by
  rw [NEXT_BLKP, hbh, GET_SIZE_self sb hsb16]

theorem coalesce_case1 (s : St) (l : List Nat) (bp sp sb sn : Nat)
    (hrep : free_list_rep s l = true)
    (hnodes : nodesOkB l = true)
    (hnodup : l.Nodup)
    (hpf : s.mem (bp - 16) = sp + 1) (hsp16 : 16 ∣ sp)
    (hbh : s.mem (HDRP bp) = sb) (hsb16 : 16 ∣ sb)
    (hnh : s.mem (bp + sb - 8) = sn + 1) (hsn16 : 16 ∣ sn)
    (hbp16 : bp % 16 = 0) (hbplo : memLo + 32 ≤ bp) (hbp64 : bp < 2 ^ 64)
    (hbpl : bp ∉ l)
    (hsep : sepB l [bp - 8] = true) :
    coalesce s bp = (insert_head s bp, bp) ∧
    (insert_head s bp).mem (HDRP bp) = sb ∧
    free_list_rep (insert_head s bp) (bp :: l) = true ∧
    (insert_head s bp).heap_start = bp ∧
    (insert_head s bp).hi = s.hi ∧ (insert_head s bp).cap = s.cap := by
  have hprev : GET_ALLOC (s.mem (bp - 16)) = 1 := by
    rw [hpf]; exact GET_ALLOC_add sp 1 hsp16 (by omega)
  have hnb := NEXT_BLKP_eq s bp sb hbh hsb16
  have hnext : GET_ALLOC (s.mem (HDRP (NEXT_BLKP s.mem bp))) = 1 := by
    rw [hnb, show HDRP (bp + sb) = bp + sb - 8 from rfl, hnh]
    exact GET_ALLOC_add sn 1 hsn16 (by omega)
  have hco : coalesce s bp = (insert_head s bp, bp) := by
    rw [coalesce, hprev, hnext]
    rw [if_pos (by omega)]
  obtain ⟨hrepI, hhiI, hcapI, hhsI, hframeI⟩ := insert_head_spec s l bp hrep hnodes
    hnodup hbp16 hbplo hbp64 hbpl
  refine ⟨hco, ?_, hrepI, hhsI, hhiI, hcapI⟩
  rw [hframeI (HDRP bp) (by rw [show HDRP bp = bp - 8 from rfl]; omega)
    (by rw [show HDRP bp = bp - 8 from rfl]; omega) ?_]
  · exact hbh
  · rcases rep_head_cases s l hrep with h | h
    · rw [h, show HDRP bp = bp - 8 from rfl]
      omega
    · have h1 := sepB_of_mem l [bp - 8] _ (bp - 8) hsep h (by simp)
      rw [show HDRP bp = bp - 8 from rfl]
      omega

theorem coalesce_case2 (s : St) (a b : List Nat) (bp sp sb sn : Nat)
    (hrep : free_list_rep s (a ++ (bp + sb) :: b) = true)
    (hnodes : nodesOkB (a ++ (bp + sb) :: b) = true)
    (hnodup : (a ++ (bp + sb) :: b).Nodup)
    (hpf : s.mem (bp - 16) = sp + 1) (hsp16 : 16 ∣ sp)
    (hbh : s.mem (HDRP bp) = sb) (hsb16 : 16 ∣ sb) (hsb32 : 32 ≤ sb)
    (hnh : s.mem (bp + sb - 8) = sn) (hsn16 : 16 ∣ sn) (hsn32 : 32 ≤ sn)
    (hbp16 : bp % 16 = 0) (hbplo : memLo + 32 ≤ bp)
    (hbig : bp + sb + sn < 2 ^ 64)
    (hbpl : bp ∉ a ++ (bp + sb) :: b)
    (hsep : sepB (a ++ (bp + sb) :: b) [bp - 8, bp + sb + sn - 16] = true) :
    (coalesce s bp).2 = bp ∧
    (coalesce s bp).1.mem (HDRP bp) = PACK (sb + sn) 0 ∧
    (coalesce s bp).1.mem (bp + sb + sn - 16) = PACK (sb + sn) 0 ∧
    free_list_rep (coalesce s bp).1 (bp :: (a ++ b)) = true ∧
    (coalesce s bp).1.heap_start = bp ∧
    (coalesce s bp).1.hi = s.hi ∧ (coalesce s bp).1.cap = s.cap := by
  have hprev : GET_ALLOC (s.mem (bp - 16)) = 1 := by
    rw [hpf]; exact GET_ALLOC_add sp 1 hsp16 (by omega)
  have hnb := NEXT_BLKP_eq s bp sb hbh hsb16
  have hnext : GET_ALLOC (s.mem (HDRP (NEXT_BLKP s.mem bp))) = 0 := by
    rw [hnb, show HDRP (bp + sb) = bp + sb - 8 from rfl, hnh]
    have := GET_ALLOC_add sn 0 hsn16 (by omega)
    simpa using this
  have hsize2 : w64 (GET_SIZE (s.mem (HDRP bp))
      + GET_SIZE (s.mem (HDRP (NEXT_BLKP s.mem bp)))) = sb + sn := by
    rw [hbh, GET_SIZE_self sb hsb16, hnb, show HDRP (bp + sb) = bp + sb - 8 from rfl,
      hnh, GET_SIZE_self sn hsn16]
    exact w64_small _ (by omega)
  obtain ⟨hrepR, hhiR, hcapR, hframeR⟩ := remove_node_spec s a b (bp + sb) hrep
    hnodes hnodup
  have hftr : FTRP (PUT (remove_node s (bp + sb)) (HDRP bp)
      (PACK (sb + sn) 0)).mem bp = bp + sb + sn - 16 := by
    simp only [FTRP]
    rw [PUT_mem_same]
    rw [show PACK (sb + sn) 0 = sb + sn + 0 from rfl]
    rw [w64_small _ (by omega)]
    rw [Nat.add_zero, GET_SIZE_self (sb + sn) (Nat.dvd_add hsb16 hsn16)]
    omega
  have hco : coalesce s bp =
      (insert_head (PUT (PUT (remove_node s (bp + sb)) (HDRP bp) (PACK (sb + sn) 0))
        (bp + sb + sn - 16) (PACK (sb + sn) 0)) bp, bp) := by
    rw [coalesce, hprev, hnext]
    rw [if_neg (by omega)]
    rw [if_pos (by omega)]
    rw [hsize2, hnb]
    simp only [hftr]
  have hsub : ∀ x ∈ a ++ b, x ∈ a ++ (bp + sb) :: b := by
    intro x hx
    simp only [List.mem_append, List.mem_cons] at hx ⊢
    tauto
  have hsepf : ∀ n ∈ a ++ (bp + sb) :: b, ∀ t ∈ [bp - 8, bp + sb + sn - 16],
      n ≠ t ∧ n + 8 ≠ t := fun n hn t ht => sepB_of_mem _ _ n t hsep hn ht
  have hnodesab : nodesOkB (a ++ b) = true := by
    simp only [nodesOkB, List.all_eq_true] at hnodes ⊢
    intro x hx
    exact hnodes x (hsub x hx)
  have hnodupab : (a ++ b).Nodup := by
    rw [List.nodup_append] at hnodup ⊢
    rw [List.nodup_cons] at hnodup
    exact ⟨hnodup.1, hnodup.2.1.2, fun x hx1 hx2 => hnodup.2.2 hx1 (by simp [hx2])⟩
  have hrep2 : free_list_rep (PUT (PUT (remove_node s (bp + sb)) (HDRP bp)
      (PACK (sb + sn) 0)) (bp + sb + sn - 16) (PACK (sb + sn) 0)) (a ++ b) = true := by
    apply free_list_rep_PUT
    · apply free_list_rep_PUT _ _ _ _ hrepR
      intro x hx
      have h1 := hsepf x (hsub x hx) (bp - 8) (by simp)
      rw [show HDRP bp = bp - 8 from rfl]
      omega
    · intro x hx
      have h1 := hsepf x (hsub x hx) (bp + sb + sn - 16) (by simp)
      omega
  obtain ⟨hrepI, hhiI, hcapI, hhsI, hframeI⟩ := insert_head_spec _ (a ++ b) bp hrep2
    hnodesab hnodupab hbp16 hbplo (by omega) (fun hmem => hbpl (hsub _ hmem))
  have hhs2 := rep_head_cases _ _ hrep2
  rw [hco]
  refine ⟨rfl, ?_, ?_, hrepI, hhsI,
    by rw [hhiI, PUT_hi, PUT_hi, hhiR],
    by rw [hcapI, PUT_cap, PUT_cap, hcapR]⟩
  · rw [hframeI (HDRP bp) (by rw [show HDRP bp = bp - 8 from rfl]; omega)
      (by rw [show HDRP bp = bp - 8 from rfl]; omega) ?_]
    · rw [PUT_mem_other _ _ _ _ (by rw [show HDRP bp = bp - 8 from rfl]; omega)]
      rw [PUT_mem_same]
      refine w64_small _ ?_
      rw [show PACK (sb + sn) 0 = sb + sn + 0 from rfl]
      omega
    · rcases hhs2 with h | h
      · rw [h, show HDRP bp = bp - 8 from rfl]
        omega
      · have h1 := hsepf _ (hsub _ h) (bp - 8) (by simp)
        exact fun hc => h1.1 (by rw [← hc]; exact rfl)
  · rw [hframeI (bp + sb + sn - 16) (by omega) (by omega) ?_]
    · rw [PUT_mem_same]
      refine w64_small _ ?_
      rw [show PACK (sb + sn) 0 = sb + sn + 0 from rfl]
      omega
    · rcases hhs2 with h | h
      · rw [h]; omega
      · have h1 := hsepf _ (hsub _ h) (bp + sb + sn - 16) (by simp)
        omega

theorem PREV_BLKP_eq (s : St) (bp sp : Nat) (hpf : s.mem (bp - 16) = sp)
    (hsp16 : 16 ∣ sp) : PREV_BLKP s.mem bp = bp - sp := by
  rw [PREV_BLKP, hpf, GET_SIZE_self sp hsp16]

theorem coalesce_case3 (s : St) (a b : List Nat) (bp sp sb sn : Nat)
    (hrep : free_list_rep s (a ++ (bp - sp) :: b) = true)
    (hnodes : nodesOkB (a ++ (bp - sp) :: b) = true)
    (hnodup : (a ++ (bp - sp) :: b).Nodup)
    (hpf : s.mem (bp - 16) = sp) (hsp16 : 16 ∣ sp) (hsp32 : 32 ≤ sp)
    (hph : s.mem (bp - sp - 8) = sp)
    (hbh : s.mem (HDRP bp) = sb) (hsb16 : 16 ∣ sb) (hsb32 : 32 ≤ sb)
    (hnh : s.mem (bp + sb - 8) = sn + 1) (hsn16 : 16 ∣ sn)
    (hbp16 : bp % 16 = 0) (hbplo : memLo + 32 + sp ≤ bp)
    (hbig : bp + sb < 2 ^ 64)
    (hsep : sepB (a ++ (bp - sp) :: b) [bp - sp - 8, bp + sb - 16] = true) :
    (coalesce s bp).2 = bp - sp ∧
    (coalesce s bp).1.mem (bp - sp - 8) = PACK (sb + sp) 0 ∧
    (coalesce s bp).1.mem (bp + sb - 16) = PACK (sb + sp) 0 ∧
    free_list_rep (coalesce s bp).1 ((bp - sp) :: (a ++ b)) = true ∧
    (coalesce s bp).1.heap_start = bp - sp ∧
    (coalesce s bp).1.hi = s.hi ∧ (coalesce s bp).1.cap = s.cap := by
  have hprev : GET_ALLOC (s.mem (bp - 16)) = 0 := by
    rw [hpf]
    have := GET_ALLOC_add sp 0 hsp16 (by omega)
    simpa using this
  have hnb := NEXT_BLKP_eq s bp sb hbh hsb16
  have hpb := PREV_BLKP_eq s bp sp hpf hsp16
  have hnext : GET_ALLOC (s.mem (HDRP (NEXT_BLKP s.mem bp))) = 1 := by
    rw [hnb, show HDRP (bp + sb) = bp + sb - 8 from rfl, hnh]
    exact GET_ALLOC_add sn 1 hsn16 (by omega)
  have hsize2 : w64 (GET_SIZE (s.mem (HDRP bp))
      + GET_SIZE (s.mem (HDRP (PREV_BLKP s.mem bp)))) = sb + sp := by
    rw [hbh, GET_SIZE_self sb hsb16, hpb, show HDRP (bp - sp) = bp - sp - 8 from rfl,
      hph, GET_SIZE_self sp hsp16]
    exact w64_small _ (by omega)
  obtain ⟨hrepR, hhiR, hcapR, hframeR⟩ := remove_node_spec s a b (bp - sp) hrep
    hnodes hnodup
  have hftr : FTRP (PUT (remove_node s (bp - sp)) (HDRP (bp - sp))
      (PACK (sb + sp) 0)).mem (bp - sp) = bp + sb - 16 := by
    simp only [FTRP]
    rw [show HDRP (bp - sp) = bp - sp - 8 from rfl]
    rw [PUT_mem_same]
    rw [show PACK (sb + sp) 0 = sb + sp + 0 from rfl]
    rw [w64_small _ (by omega)]
    rw [Nat.add_zero, GET_SIZE_self (sb + sp) (Nat.dvd_add hsb16 hsp16)]
    omega
  have hco : coalesce s bp =
      (insert_head (PUT (PUT (remove_node s (bp - sp)) (HDRP (bp - sp))
        (PACK (sb + sp) 0)) (bp + sb - 16) (PACK (sb + sp) 0)) (bp - sp), bp - sp) := by
    rw [coalesce, hprev, hnext]
    rw [if_neg (by omega)]
    rw [if_neg (by omega)]
    rw [if_pos (by omega)]
    rw [hsize2, hpb]
    simp only [hftr]
  have hsub : ∀ x ∈ a ++ b, x ∈ a ++ (bp - sp) :: b := by
    intro x hx
    simp only [List.mem_append, List.mem_cons] at hx ⊢
    tauto
  have hsepf : ∀ n ∈ a ++ (bp - sp) :: b, ∀ t ∈ [bp - sp - 8, bp + sb - 16],
      n ≠ t ∧ n + 8 ≠ t := fun n hn t ht => sepB_of_mem _ _ n t hsep hn ht
  have hnodesab : nodesOkB (a ++ b) = true := by
    simp only [nodesOkB, List.all_eq_true] at hnodes ⊢
    intro x hx
    exact hnodes x (hsub x hx)
  have hnodupab : (a ++ b).Nodup := by
    rw [List.nodup_append] at hnodup ⊢
    rw [List.nodup_cons] at hnodup
    exact ⟨hnodup.1, hnodup.2.1.2, fun x hx1 hx2 => hnodup.2.2 hx1 (by simp [hx2])⟩
  have hpsl : bp - sp ∉ a ++ b := by
    intro hmem
    rw [List.nodup_append, List.nodup_cons] at hnodup
    rcases List.mem_append.mp hmem with h | h
    · exact hnodup.2.2 h (by simp)
    · exact hnodup.2.1.1 h
  have hrep2 : free_list_rep (PUT (PUT (remove_node s (bp - sp)) (HDRP (bp - sp))
      (PACK (sb + sp) 0)) (bp + sb - 16) (PACK (sb + sp) 0)) (a ++ b) = true := by
    apply free_list_rep_PUT
    · apply free_list_rep_PUT _ _ _ _ hrepR
      intro x hx
      have h1 := hsepf x (hsub x hx) (bp - sp - 8) (by simp)
      rw [show HDRP (bp - sp) = bp - sp - 8 from rfl]
      omega
    · intro x hx
      have h1 := hsepf x (hsub x hx) (bp + sb - 16) (by simp)
      omega
  have hpsp := nodesOkB_of_mem _ (bp - sp) hnodes (by simp)
  obtain ⟨hrepI, hhiI, hcapI, hhsI, hframeI⟩ := insert_head_spec _ (a ++ b) (bp - sp)
    hrep2 hnodesab hnodupab hpsp.1 hpsp.2.1 hpsp.2.2 hpsl
  have hhs2 := rep_head_cases _ _ hrep2
  rw [hco]
  refine ⟨rfl, ?_, ?_, hrepI, hhsI,
    by rw [hhiI, PUT_hi, PUT_hi, hhiR],
    by rw [hcapI, PUT_cap, PUT_cap, hcapR]⟩
  · rw [hframeI (bp - sp - 8) (by omega) (by omega) ?_]
    · rw [PUT_mem_other _ _ _ _ (by omega)]
      rw [show bp - sp - 8 = HDRP (bp - sp) from rfl]
      rw [PUT_mem_same]
      refine w64_small _ ?_
      rw [show PACK (sb + sp) 0 = sb + sp + 0 from rfl]
      omega
    · rcases hhs2 with h | h
      · rw [h]; omega
      · have h1 := hsepf _ (hsub _ h) (bp - sp - 8) (by simp)
        omega
  · rw [hframeI (bp + sb - 16) (by omega) (by omega) ?_]
    · rw [PUT_mem_same]
      refine w64_small _ ?_
      rw [show PACK (sb + sp) 0 = sb + sp + 0 from rfl]
      omega
    · rcases hhs2 with h | h
      · rw [h]; omega
      · have h1 := hsepf _ (hsub _ h) (bp + sb - 16) (by simp)
        omega

theorem coalesce_case4 (s : St) (a b a2 b2 : List Nat) (bp sp sb sn : Nat)
    (hrep : free_list_rep s (a ++ (bp - sp) :: b) = true)
    (hnodes : nodesOkB (a ++ (bp - sp) :: b) = true)
    (hnodup : (a ++ (bp - sp) :: b).Nodup)
    (hsplit2 : a ++ b = a2 ++ (bp + sb) :: b2)
    (hpf : s.mem (bp - 16) = sp) (hsp16 : 16 ∣ sp) (hsp32 : 32 ≤ sp)
    (hph : s.mem (bp - sp - 8) = sp)
    (hbh : s.mem (HDRP bp) = sb) (hsb16 : 16 ∣ sb) (hsb32 : 32 ≤ sb)
    (hnh : s.mem (bp + sb - 8) = sn) (hsn16 : 16 ∣ sn) (hsn32 : 32 ≤ sn)
    (hbp16 : bp % 16 = 0) (hbplo : memLo + 32 + sp ≤ bp)
    (hbig : bp + sb + sn < 2 ^ 64)
    (hsep : sepB (a ++ (bp - sp) :: b)
      [bp - 16, bp - 8, bp - sp - 8, bp + sb + sn - 16] = true) :
    (coalesce s bp).2 = bp - sp ∧
    (coalesce s bp).1.mem (bp - sp - 8) = PACK (sb + sp + sn) 0 ∧
    (coalesce s bp).1.mem (bp + sb + sn - 16) = PACK (sb + sp + sn) 0 ∧
    free_list_rep (coalesce s bp).1 ((bp - sp) :: (a2 ++ b2)) = true ∧
    (coalesce s bp).1.heap_start = bp - sp ∧
    (coalesce s bp).1.hi = s.hi ∧ (coalesce s bp).1.cap = s.cap := by
  have hprev : GET_ALLOC (s.mem (bp - 16)) = 0 := by
    rw [hpf]
    have := GET_ALLOC_add sp 0 hsp16 (by omega)
    simpa using this
  have hnb := NEXT_BLKP_eq s bp sb hbh hsb16
  have hpb := PREV_BLKP_eq s bp sp hpf hsp16
  have hnext : GET_ALLOC (s.mem (HDRP (NEXT_BLKP s.mem bp))) = 0 := by
    rw [hnb, show HDRP (bp + sb) = bp + sb - 8 from rfl, hnh]
    have := GET_ALLOC_add sn 0 hsn16 (by omega)
    simpa using this
  have hsize2 : w64 (GET_SIZE (s.mem (HDRP bp))
      + GET_SIZE (s.mem (HDRP (PREV_BLKP s.mem bp)))
      + GET_SIZE (s.mem (HDRP (NEXT_BLKP s.mem bp)))) = sb + sp + sn := by
    rw [hbh, GET_SIZE_self sb hsb16, hpb, hnb,
      show HDRP (bp - sp) = bp - sp - 8 from rfl,
      show HDRP (bp + sb) = bp + sb - 8 from rfl, hph, hnh,
      GET_SIZE_self sp hsp16, GET_SIZE_self sn hsn16]
    exact w64_small _ (by omega)
  have hsepf : ∀ n ∈ a ++ (bp - sp) :: b, ∀ t ∈ [bp - 16, bp - 8, bp - sp - 8,
      bp + sb + sn - 16], n ≠ t ∧ n + 8 ≠ t :=
    fun n hn t ht => sepB_of_mem _ _ n t hsep hn ht
  have hsub : ∀ x ∈ a ++ b, x ∈ a ++ (bp - sp) :: b := by
    intro x hx
    simp only [List.mem_append, List.mem_cons] at hx ⊢
    tauto
  obtain ⟨hrepR, hhiR, hcapR, hframeR⟩ := remove_node_spec s a b (bp - sp) hrep
    hnodes hnodup
  -- facts transported to the split of the list after the first removal
  have hnodesab : nodesOkB (a2 ++ (bp + sb) :: b2) = true := by
    rw [← hsplit2]
    simp only [nodesOkB, List.all_eq_true] at hnodes ⊢
    intro x hx
    exact hnodes x (hsub x hx)
  have hnodupab : (a2 ++ (bp + sb) :: b2).Nodup := by
    rw [← hsplit2]
    rw [List.nodup_append] at hnodup ⊢
    rw [List.nodup_cons] at hnodup
    exact ⟨hnodup.1, hnodup.2.1.2, fun x hx1 hx2 => hnodup.2.2 hx1 (by simp [hx2])⟩
  have hrepR2 : free_list_rep (remove_node s (bp - sp)) (a2 ++ (bp + sb) :: b2)
      = true := by
    rw [← hsplit2]
    exact hrepR
  -- the own header is untouched by the first removal
  have hbh1 : (remove_node s (bp - sp)).mem (HDRP bp) = sb := by
    rw [hframeR (HDRP bp) (fun x hx => by
        have h1 := hsepf x hx (bp - 8) (by simp)
        rw [show HDRP bp = bp - 8 from rfl]
        omega)
      (by rw [show HDRP bp = bp - 8 from rfl]; omega)]
    exact hbh
  have hnb1 : NEXT_BLKP (remove_node s (bp - sp)).mem bp = bp + sb :=
    NEXT_BLKP_eq _ bp sb hbh1 hsb16
  obtain ⟨hrepS, hhiS, hcapS, hframeS⟩ := remove_node_spec (remove_node s (bp - sp))
    a2 b2 (bp + sb) hrepR2 hnodesab hnodupab
  have hsubS : ∀ x ∈ a2 ++ (bp + sb) :: b2, x ∈ a ++ (bp - sp) :: b := by
    intro x hx
    apply hsub
    rw [hsplit2]
    exact hx
  have hsub2 : ∀ x ∈ a2 ++ b2, x ∈ a ++ (bp - sp) :: b := by
    intro x hx
    apply hsubS
    simp only [List.mem_append, List.mem_cons] at hx ⊢
    tauto
  -- the previous block footer survives both removals
  have hpf2 : (remove_node (remove_node s (bp - sp)) (bp + sb)).mem (bp - 16) = sp := by
    rw [hframeS (bp - 16) (fun x hx => by
        have h1 := hsepf x (hsubS x hx) (bp - 16) (by simp)
        omega)
      (by omega)]
    rw [hframeR (bp - 16) (fun x hx => by
        have h1 := hsepf x hx (bp - 16) (by simp)
        omega)
      (by omega)]
    exact hpf
  have hpb2 : PREV_BLKP (remove_node (remove_node s (bp - sp)) (bp + sb)).mem bp
      = bp - sp := PREV_BLKP_eq _ bp sp hpf2 hsp16
  have hftr : FTRP (PUT (remove_node (remove_node s (bp - sp)) (bp + sb))
      (HDRP (bp - sp)) (PACK (sb + sp + sn) 0)).mem (bp - sp) = bp + sb + sn - 16 := by
    simp only [FTRP]
    rw [show HDRP (bp - sp) = bp - sp - 8 from rfl]
    rw [PUT_mem_same]
    rw [show PACK (sb + sp + sn) 0 = sb + sp + sn + 0 from rfl]
    rw [w64_small _ (by omega)]
    rw [Nat.add_zero, GET_SIZE_self (sb + sp + sn)
      (Nat.dvd_add (Nat.dvd_add hsb16 hsp16) hsn16)]
    omega
  have hco : coalesce s bp =
      (insert_head (PUT (PUT (remove_node (remove_node s (bp - sp)) (bp + sb))
        (HDRP (bp - sp)) (PACK (sb + sp + sn) 0)) (bp + sb + sn - 16)
        (PACK (sb + sp + sn) 0)) (bp - sp), bp - sp) := by
    rw [coalesce, hprev, hnext]
    rw [if_neg (by omega)]
    rw [if_neg (by omega)]
    rw [if_neg (by omega)]
    rw [hsize2, hpb]
    simp only [hnb1, hpb2, hftr]
  have hps2 : bp - sp ∉ a2 ++ b2 := by
    intro hmem
    have hmem2 : bp - sp ∈ a ++ b := by
      rw [hsplit2]
      simp only [List.mem_append, List.mem_cons] at hmem ⊢
      tauto
    rw [List.nodup_append, List.nodup_cons] at hnodup
    rcases List.mem_append.mp hmem2 with h | h
    · exact hnodup.2.2 h (by simp)
    · exact hnodup.2.1.1 h
  have hnodesf : nodesOkB (a2 ++ b2) = true := by
    simp only [nodesOkB, List.all_eq_true] at hnodesab ⊢
    intro x hx
    apply hnodesab
    simp only [List.mem_append, List.mem_cons] at hx ⊢
    tauto
  have hnodupf : (a2 ++ b2).Nodup := by
    rw [List.nodup_append] at hnodupab ⊢
    rw [List.nodup_cons] at hnodupab
    exact ⟨hnodupab.1, hnodupab.2.1.2,
      fun x hx1 hx2 => hnodupab.2.2 hx1 (by simp [hx2])⟩
  have hsubf : ∀ x ∈ a2 ++ b2, x ∈ a ++ (bp - sp) :: b := by
    intro x hx
    apply hsub2
    exact hx
  have hrep2 : free_list_rep (PUT (PUT (remove_node (remove_node s (bp - sp))
      (bp + sb)) (HDRP (bp - sp)) (PACK (sb + sp + sn) 0)) (bp + sb + sn - 16)
      (PACK (sb + sp + sn) 0)) (a2 ++ b2) = true := by
    apply free_list_rep_PUT
    · apply free_list_rep_PUT _ _ _ _ hrepS
      intro x hx
      have h1 := hsepf x (hsubf x hx) (bp - sp - 8) (by simp)
      rw [show HDRP (bp - sp) = bp - sp - 8 from rfl]
      omega
    · intro x hx
      have h1 := hsepf x (hsubf x hx) (bp + sb + sn - 16) (by simp)
      omega
  have hpsp := nodesOkB_of_mem _ (bp - sp) hnodes (by simp)
  obtain ⟨hrepI, hhiI, hcapI, hhsI, hframeI⟩ := insert_head_spec _ (a2 ++ b2)
    (bp - sp) hrep2 hnodesf hnodupf hpsp.1 hpsp.2.1 hpsp.2.2 hps2
  have hhs2 := rep_head_cases _ _ hrep2
  rw [hco]
  refine ⟨rfl, ?_, ?_, hrepI, hhsI,
    by rw [hhiI, PUT_hi, PUT_hi, hhiS, hhiR],
    by rw [hcapI, PUT_cap, PUT_cap, hcapS, hcapR]⟩
  · rw [hframeI (bp - sp - 8) (by omega) (by omega) ?_]
    · rw [PUT_mem_other _ _ _ _ (by omega)]
      rw [show bp - sp - 8 = HDRP (bp - sp) from rfl]
      rw [PUT_mem_same]
      refine w64_small _ ?_
      rw [show PACK (sb + sp + sn) 0 = sb + sp + sn + 0 from rfl]
      omega
    · rcases hhs2 with h | h
      · rw [h]; omega
      · have h1 := hsepf _ (hsubf _ h) (bp - sp - 8) (by simp)
        omega
  · rw [hframeI (bp + sb + sn - 16) (by omega) (by omega) ?_]
    · rw [PUT_mem_same]
      refine w64_small _ ?_
      rw [show PACK (sb + sp + sn) 0 = sb + sp + sn + 0 from rfl]
      omega
    · rcases hhs2 with h | h
      · rw [h]; omega
      · have h1 := hsepf _ (hsubf _ h) (bp + sb + sn - 16) (by simp)
        omega

/-- Claim C1: for every logically-free block, `coalesce` inspects the
    allocated flag of the previous block (via its footer, the word at
    `bp - DSIZE`) and of the next block (via its header), handling exactly
    the four cases of the two binary flags; in each case the resulting
    merged block is inserted into the free list exactly once (it becomes
    the head and occurs once in the resulting list), and when both
    neighbours are free the merged block starts at the previous block's
    start address (`PREV_BLKP`) and its size is the sum of the sizes of
    all three blocks. -/
theorem coalesce_four_cases :
    (∀ (s : St) (l : List Nat) (bp sp sb sn : Nat),
      free_list_rep s l = true → nodesOkB l = true → l.Nodup →
      s.mem (bp - 16) = sp + 1 → 16 ∣ sp →
      s.mem (HDRP bp) = sb → 16 ∣ sb →
      s.mem (bp + sb - 8) = sn + 1 → 16 ∣ sn →
      bp % 16 = 0 → memLo + 32 ≤ bp → bp < 2 ^ 64 → bp ∉ l →
      sepB l [bp - 8] = true →
      (coalesce s bp).2 = bp ∧
      (coalesce s bp).1.mem (HDRP bp) = sb ∧
      free_list_rep (coalesce s bp).1 (bp :: l) = true ∧
      (bp :: l).count bp = 1 ∧
      (coalesce s bp).1.heap_start = bp) ∧
    (∀ (s : St) (a b : List Nat) (bp sp sb sn : Nat),
      free_list_rep s (a ++ (bp + sb) :: b) = true →
      nodesOkB (a ++ (bp + sb) :: b) = true → (a ++ (bp + sb) :: b).Nodup →
      s.mem (bp - 16) = sp + 1 → 16 ∣ sp →
      s.mem (HDRP bp) = sb → 16 ∣ sb → 32 ≤ sb →
      s.mem (bp + sb - 8) = sn → 16 ∣ sn → 32 ≤ sn →
      bp % 16 = 0 → memLo + 32 ≤ bp → bp + sb + sn < 2 ^ 64 →
      bp ∉ a ++ (bp + sb) :: b →
      sepB (a ++ (bp + sb) :: b) [bp - 8, bp + sb + sn - 16] = true →
      (coalesce s bp).2 = bp ∧
      (coalesce s bp).1.mem (HDRP bp) = PACK (sb + sn) 0 ∧
      free_list_rep (coalesce s bp).1 (bp :: (a ++ b)) = true ∧
      (bp :: (a ++ b)).count bp = 1 ∧
      (coalesce s bp).1.heap_start = bp) ∧
    (∀ (s : St) (a b : List Nat) (bp sp sb sn : Nat),
      free_list_rep s (a ++ (bp - sp) :: b) = true →
      nodesOkB (a ++ (bp - sp) :: b) = true → (a ++ (bp - sp) :: b).Nodup →
      s.mem (bp - 16) = sp → 16 ∣ sp → 32 ≤ sp →
      s.mem (bp - sp - 8) = sp →
      s.mem (HDRP bp) = sb → 16 ∣ sb → 32 ≤ sb →
      s.mem (bp + sb - 8) = sn + 1 → 16 ∣ sn →
      bp % 16 = 0 → memLo + 32 + sp ≤ bp → bp + sb < 2 ^ 64 →
      sepB (a ++ (bp - sp) :: b) [bp - sp - 8, bp + sb - 16] = true →
      (coalesce s bp).2 = bp - sp ∧
      (coalesce s bp).1.mem (bp - sp - 8) = PACK (sb + sp) 0 ∧
      free_list_rep (coalesce s bp).1 ((bp - sp) :: (a ++ b)) = true ∧
      ((bp - sp) :: (a ++ b)).count (bp - sp) = 1 ∧
      (coalesce s bp).1.heap_start = bp - sp) ∧
    (∀ (s : St) (a b a2 b2 : List Nat) (bp sp sb sn : Nat),
      free_list_rep s (a ++ (bp - sp) :: b) = true →
      nodesOkB (a ++ (bp - sp) :: b) = true → (a ++ (bp - sp) :: b).Nodup →
      a ++ b = a2 ++ (bp + sb) :: b2 →
      s.mem (bp - 16) = sp → 16 ∣ sp → 32 ≤ sp →
      s.mem (bp - sp - 8) = sp →
      s.mem (HDRP bp) = sb → 16 ∣ sb → 32 ≤ sb →
      s.mem (bp + sb - 8) = sn → 16 ∣ sn → 32 ≤ sn →
      bp % 16 = 0 → memLo + 32 + sp ≤ bp → bp + sb + sn < 2 ^ 64 →
      sepB (a ++ (bp - sp) :: b) [bp - 16, bp - 8, bp - sp - 8, bp + sb + sn - 16]
        = true →
      (coalesce s bp).2 = PREV_BLKP s.mem bp ∧
      (coalesce s bp).2 = bp - sp ∧
      GET_SIZE ((coalesce s bp).1.mem (bp - sp - 8)) = sb + sp + sn ∧
      (coalesce s bp).1.mem (bp + sb + sn - 16) = PACK (sb + sp + sn) 0 ∧
      free_list_rep (coalesce s bp).1 ((bp - sp) :: (a2 ++ b2)) = true ∧
      ((bp - sp) :: (a2 ++ b2)).count (bp - sp) = 1 ∧
      (coalesce s bp).1.heap_start = bp - sp) := by
  refine ⟨?_, ?_, ?_, ?_⟩
  · intro s l bp sp sb sn hrep hnodes hnodup hpf hsp16 hbh hsb16 hnh hsn16 hbp16
      hbplo hbp64 hbpl hsep
    obtain ⟨hco, hmem, hrep2, hhs, hhi, hcap⟩ := coalesce_case1 s l bp sp sb sn hrep
      hnodes hnodup hpf hsp16 hbh hsb16 hnh hsn16 hbp16 hbplo hbp64 hbpl hsep
    rw [hco]
    exact ⟨rfl, hmem, hrep2, by
      rw [List.count_cons_self, List.count_eq_zero.mpr hbpl], hhs⟩
  · intro s a b bp sp sb sn hrep hnodes hnodup hpf hsp16 hbh hsb16 hsb32 hnh hsn16
      hsn32 hbp16 hbplo hbig hbpl hsep
    obtain ⟨hret, hmem, hftr, hrep2, hhs, hhi, hcap⟩ := coalesce_case2 s a b bp sp sb
      sn hrep hnodes hnodup hpf hsp16 hbh hsb16 hsb32 hnh hsn16 hsn32 hbp16 hbplo
      hbig hbpl hsep
    have hbpab : bp ∉ a ++ b := by
      intro hmem2
      apply hbpl
      simp only [List.mem_append, List.mem_cons] at hmem2 ⊢
      tauto
    exact ⟨hret, hmem, hrep2, by
      rw [List.count_cons_self, List.count_eq_zero.mpr hbpab], hhs⟩
  · intro s a b bp sp sb sn hrep hnodes hnodup hpf hsp16 hsp32 hph hbh hsb16 hsb32
      hnh hsn16 hbp16 hbplo hbig hsep
    obtain ⟨hret, hmem, hftr, hrep2, hhs, hhi, hcap⟩ := coalesce_case3 s a b bp sp sb
      sn hrep hnodes hnodup hpf hsp16 hsp32 hph hbh hsb16 hsb32 hnh hsn16 hbp16
      hbplo hbig hsep
    have hpsl : bp - sp ∉ a ++ b := by
      intro hmem2
      rw [List.nodup_append, List.nodup_cons] at hnodup
      rcases List.mem_append.mp hmem2 with h | h
      · exact hnodup.2.2 h (by simp)
      · exact hnodup.2.1.1 h
    exact ⟨hret, hmem, hrep2, by
      rw [List.count_cons_self, List.count_eq_zero.mpr hpsl], hhs⟩
  · intro s a b a2 b2 bp sp sb sn hrep hnodes hnodup hsplit2 hpf hsp16 hsp32 hph hbh
      hsb16 hsb32 hnh hsn16 hsn32 hbp16 hbplo hbig hsep
    obtain ⟨hret, hmem, hftr, hrep2, hhs, hhi, hcap⟩ := coalesce_case4 s a b a2 b2 bp
      sp sb sn hrep hnodes hnodup hsplit2 hpf hsp16 hsp32 hph hbh hsb16 hsb32 hnh
      hsn16 hsn32 hbp16 hbplo hbig hsep
    have hps2 : bp - sp ∉ a2 ++ b2 := by
      intro hmem2
      have hmem3 : bp - sp ∈ a ++ b := by
        rw [hsplit2]
        simp only [List.mem_append, List.mem_cons] at hmem2 ⊢
        tauto
      rw [List.nodup_append, List.nodup_cons] at hnodup
      rcases List.mem_append.mp hmem3 with h | h
      · exact hnodup.2.2 h (by simp)
      · exact hnodup.2.1.1 h
    refine ⟨?_, hret, ?_, hftr, hrep2, by
      rw [List.count_cons_self, List.count_eq_zero.mpr hps2], hhs⟩
    · rw [hret, PREV_BLKP_eq s bp sp hpf hsp16]
    · rw [hmem]
      rw [show PACK (sb + sp + sn) 0 = sb + sp + sn + 0 from rfl, Nat.add_zero]
      exact GET_SIZE_self _ (Nat.dvd_add (Nat.dvd_add hsb16 hsp16) hsn16)

/-- Claim C1, witness: on the concrete heap `coalesceStC4` (both
    neighbours of the freed 32-byte block at `memLo + 64` are free), the
    hypotheses of the both-free case of `coalesce_four_cases` hold and the
    conclusion is obtained by applying the theorem: the merged block starts
    at the previous block's start address, has size `32 + 32 + 48`, and is
    inserted into the free list exactly once. -/
theorem coalesce_four_cases_witness :
    (free_list_rep coalesceStC4 ([] ++ (memLo + 64 - 32) :: [memLo + 96]) = true ∧
      coalesceStC4.mem (memLo + 64 - 16) = 32 ∧
      coalesceStC4.mem (HDRP (memLo + 64)) = 32 ∧
      coalesceStC4.mem (memLo + 64 + 32 - 8) = 48) ∧
    ((coalesce coalesceStC4 (memLo + 64)).2 = PREV_BLKP coalesceStC4.mem (memLo + 64) ∧
      (coalesce coalesceStC4 (memLo + 64)).2 = memLo + 64 - 32 ∧
      GET_SIZE ((coalesce coalesceStC4 (memLo + 64)).1.mem (memLo + 64 - 32 - 8))
        = 32 + 32 + 48 ∧
      (coalesce coalesceStC4 (memLo + 64)).1.mem (memLo + 64 + 32 + 48 - 16)
        = PACK (32 + 32 + 48) 0 ∧
      free_list_rep (coalesce coalesceStC4 (memLo + 64)).1
        ((memLo + 64 - 32) :: ([] ++ [])) = true ∧
      ((memLo + 64 - 32) :: ([] ++ ([] : List Nat))).count (memLo + 64 - 32) = 1 ∧
      (coalesce coalesceStC4 (memLo + 64)).1.heap_start = memLo + 64 - 32) :=
  ⟨⟨by decide, by decide, by decide, by decide⟩,
    coalesce_four_cases.2.2.2 coalesceStC4 [] [memLo + 96] [] [] (memLo + 64) 32 32 48
      (by decide) (by decide) (by decide) (by decide) (by decide) (by decide)
      (by decide) (by decide) (by decide) (by decide) (by decide) (by decide)
      (by decide) (by decide) (by decide) (by decide) (by decide) (by decide)⟩

theorem sepB_intro (l ts : List Nat)
    (h : ∀ n ∈ l, ∀ t ∈ ts, n ≠ t ∧ n + 8 ≠ t) : sepB l ts = true := by
  simp only [sepB, List.all_eq_true]
  intro n hn t ht
  have h2 := h n hn t ht
  simp only [Bool.and_eq_true, bne_iff_ne]
  exact h2

theorem adjusted_size_props (size : Nat) (h0 : 0 < size) (hov : size + 31 < 2 ^ 64) :
    adjusted_size size =
      (if size ≤ DSIZE then DSIZE + OVERHEAD
       else DSIZE * ((size + OVERHEAD + (DSIZE - 1)) / DSIZE)) ∧
    16 ∣ adjusted_size size ∧ 32 ≤ adjusted_size size ∧
    size + 16 ≤ adjusted_size size ∧ adjusted_size size < 2 ^ 64 := by
  rw [adjusted_size]
  simp only [DSIZE, OVERHEAD]
  by_cases hc : size ≤ 16
  · rw [if_pos hc, if_pos hc]
    refine ⟨rfl, by omega, by omega, by omega, by omega⟩
  · rw [if_neg hc, if_neg hc]
    have h1 : w64 (size + 16 + 15) = size + 16 + 15 := w64_small _ (by omega)
    rw [h1]
    have h2 : 16 * ((size + 16 + 15) / 16) < 2 ^ 64 := by omega
    have h3 : w64 (16 * ((size + 16 + 15) / 16)) = 16 * ((size + 16 + 15) / 16) :=
      w64_small _ h2
    rw [h3]
    refine ⟨rfl, ⟨_, rfl⟩, by omega, by omega, h2⟩

theorem adjusted_size_dvd (size : Nat) : 16 ∣ adjusted_size size := by
  rw [adjusted_size]
  by_cases hc : size ≤ DSIZE
  · rw [if_pos hc]
    decide
  · rw [if_neg hc]
    simp only [DSIZE, OVERHEAD, w64]
    obtain ⟨k, hk⟩ : ∃ k, 16 * (w64 (size + 16 + 15) / 16) = 16 * k := ⟨_, rfl⟩
    rw [show (16 : Nat) * (((size + 16 + 15) % 2 ^ 64) / 16) % 2 ^ 64 =
      16 * ((((size + 16 + 15) % 2 ^ 64) / 16) % (2 ^ 60)) from by omega]
    exact ⟨_, rfl⟩

theorem adjusted_size_lt (size : Nat) : adjusted_size size < 2 ^ 64 := by
  rw [adjusted_size]
  by_cases hc : size ≤ DSIZE
  · rw [if_pos hc]
    decide
  · rw [if_neg hc]
    exact Nat.mod_lt _ (by decide)

theorem GET_SIZE_le (w : Nat) : GET_SIZE w ≤ w := by
  rw [GET_SIZE]
  omega

theorem nodesOkB_sub (l l2 : List Nat) (h : nodesOkB l = true)
    (hsub : ∀ x ∈ l2, x ∈ l) : nodesOkB l2 = true := by
  simp only [nodesOkB, List.all_eq_true] at h ⊢
  exact fun x hx => h x (hsub x hx)

theorem nodesOkB_cons_intro (x : Nat) (l : List Nat) (h16 : x % 16 = 0)
    (hlo : memLo + 32 ≤ x) (h64 : x < 2 ^ 64) (h : nodesOkB l = true) :
    nodesOkB (x :: l) = true := by
  simp only [nodesOkB, List.all_eq_true] at h ⊢
  intro y hy
  rcases List.mem_cons.mp hy with rfl | hy2
  · simp only [Bool.and_eq_true, beq_iff_eq, Nat.ble_eq, Nat.blt_eq]
    exact ⟨⟨h16, hlo⟩, h64⟩
  · exact h y hy2

theorem nodup_middle (a b : List Nat) (x : Nat) (h : (a ++ x :: b).Nodup) :
    (a ++ b).Nodup ∧ x ∉ a ++ b := by
  rw [List.nodup_append] at h
  rw [List.nodup_cons] at h
  constructor
  · rw [List.nodup_append]
    exact ⟨h.1, h.2.1.2, fun y hy1 hy2 => h.2.2 hy1 (by simp [hy2])⟩
  · intro hx
    rcases List.mem_append.mp hx with hxa | hxb
    · exact h.2.2 hxa (by simp)
    · exact h.2.1.1 hxb

/-- `extend_heap` on a heap whose last block (before the old high boundary) is
    allocated, with the free list represented by `l`: the extension succeeds
    at the old boundary, the new free block of `words * 8` bytes coalesces
    with nothing (case 1) and becomes the head of the free list. -/
theorem extend_heap_post_alloc (s : St) (l : List Nat) (words sp : Nat)
    (hrep : free_list_rep s l = true)
    (hnodes : nodesOkB l = true)
    (hnodup : l.Nodup)
    (hw : words % 2 = 0) (h32 : 32 ≤ words * 8)
    (hsbrk : s.hi + words * 8 ≤ memLo + s.cap)
    (hbig : s.hi + words * 8 < 2 ^ 64)
    (hhi16 : s.hi % 16 = 0) (hhilo : memLo + 48 ≤ s.hi)
    (hpf : s.mem (s.hi - 16) = sp + 1) (hsp16 : 16 ∣ sp)
    (hbelow : ∀ x ∈ l, x + 40 ≤ s.hi) :
    ∀ E ret, extend_heap s words = some (E, ret) →
      ret = s.hi ∧ E.mem (HDRP s.hi) = words * 8 ∧
      free_list_rep E (s.hi :: l) = true ∧ E.heap_start = s.hi ∧
      E.hi = s.hi + words * 8 ∧ E.cap = s.cap := by
  intro E ret heq
  have h16 : 16 ∣ words * 8 := ⟨words / 2, by omega⟩
  have key : extend_heap s words = some (coalesce
      (PUT (PUT (PUT { s with hi := s.hi + words * 8 } (HDRP s.hi)
          (PACK (words * 8) 0))
        (FTRP (PUT { s with hi := s.hi + words * 8 } (HDRP s.hi)
          (PACK (words * 8) 0)).mem s.hi)
        (PACK (words * 8) 0))
        (HDRP (NEXT_BLKP (PUT (PUT { s with hi := s.hi + words * 8 } (HDRP s.hi)
            (PACK (words * 8) 0))
          (FTRP (PUT { s with hi := s.hi + words * 8 } (HDRP s.hi)
            (PACK (words * 8) 0)).mem s.hi)
          (PACK (words * 8) 0)).mem s.hi))
        (PACK 0 1)) s.hi) := by
    simp only [extend_heap]
    rw [show (if words % 2 = 1 then w64 (w64 (words * WSIZE) + WSIZE)
        else w64 (words * WSIZE)) = words * 8 from by
      rw [if_neg (by omega)]
      simp only [w64, WSIZE]
      omega]
    rw [mem_sbrk_eq, if_pos hsbrk]
  have e1 : HDRP s.hi = s.hi - 8 := rfl
  rw [e1] at key
  have hputmem : (PUT { s with hi := s.hi + words * 8 } (s.hi - 8)
      (PACK (words * 8) 0)).mem (s.hi - 8) = words * 8 := by
    rw [PUT_mem_same]
    rw [show PACK (words * 8) 0 = words * 8 from by simp [PACK]]
    exact w64_small _ (by omega)
  have e2 : FTRP (PUT { s with hi := s.hi + words * 8 } (s.hi - 8)
      (PACK (words * 8) 0)).mem s.hi = s.hi + words * 8 - 16 := by
    simp only [FTRP, e1]
    rw [hputmem, GET_SIZE_self _ h16]
  rw [e2] at key
  have e3 : HDRP (NEXT_BLKP (PUT (PUT { s with hi := s.hi + words * 8 } (s.hi - 8)
      (PACK (words * 8) 0)) (s.hi + words * 8 - 16) (PACK (words * 8) 0)).mem
      s.hi) = s.hi + words * 8 - 8 := by
    simp only [NEXT_BLKP, e1]
    rw [PUT_mem_other _ _ _ _ (by omega), hputmem, GET_SIZE_self _ h16]
    simp only [HDRP]
  rw [e3] at key
  have hrep4 : free_list_rep (PUT (PUT (PUT { s with hi := s.hi + words * 8 }
      (s.hi - 8) (PACK (words * 8) 0)) (s.hi + words * 8 - 16)
      (PACK (words * 8) 0)) (s.hi + words * 8 - 8) (PACK 0 1)) l = true := by
    apply free_list_rep_PUT
    · apply free_list_rep_PUT
      · apply free_list_rep_PUT _ _ _ _ hrep
        intro x hx
        have := hbelow x hx
        omega
      · intro x hx
        have := hbelow x hx
        omega
    · intro x hx
      have := hbelow x hx
      omega
  have hpf4 : (PUT (PUT (PUT { s with hi := s.hi + words * 8 } (s.hi - 8)
      (PACK (words * 8) 0)) (s.hi + words * 8 - 16) (PACK (words * 8) 0))
      (s.hi + words * 8 - 8) (PACK 0 1)).mem (s.hi - 16) = sp + 1 := by
    rw [PUT3_mem, if_neg (by omega), if_neg (by omega), if_neg (by omega)]
    exact hpf
  have hbh4 : (PUT (PUT (PUT { s with hi := s.hi + words * 8 } (s.hi - 8)
      (PACK (words * 8) 0)) (s.hi + words * 8 - 16) (PACK (words * 8) 0))
      (s.hi + words * 8 - 8) (PACK 0 1)).mem (HDRP s.hi) = words * 8 := by
    rw [e1, PUT3_mem, if_neg (by omega), if_neg (by omega), if_pos rfl]
    rw [show PACK (words * 8) 0 = words * 8 from by simp [PACK]]
    exact w64_small _ (by omega)
  have hnh4 : (PUT (PUT (PUT { s with hi := s.hi + words * 8 } (s.hi - 8)
      (PACK (words * 8) 0)) (s.hi + words * 8 - 16) (PACK (words * 8) 0))
      (s.hi + words * 8 - 8) (PACK 0 1)).mem (s.hi + words * 8 - 8) = 0 + 1 := by
    rw [PUT3_mem, if_pos rfl]
    decide
  have hbpl4 : s.hi ∉ l := by
    intro h
    have := hbelow _ h
    omega
  have hsep4 : sepB l [s.hi - 8] = true := by
    apply sepB_intro
    intro n hn t ht
    have := hbelow n hn
    rcases List.mem_singleton.mp ht with rfl
    omega
  obtain ⟨hco, hhdr, hrepC, hhsC, hhiC, hcapC⟩ := coalesce_case1 _ l s.hi sp
    (words * 8) 0 hrep4 hnodes hnodup hpf4 hsp16 hbh4 h16 hnh4 (dvd_zero 16)
    hhi16 (by omega) (by omega) hbpl4 hsep4
  rw [hco] at key
  rw [key] at heq
  simp only [Option.some.injEq, Prod.mk.injEq] at heq
  obtain ⟨hE, hret⟩ := heq
  subst hE
  subst hret
  exact ⟨rfl, hhdr, hrepC, hhsC, hhiC, hcapC⟩

/-- `extend_heap` on a heap whose last block (before the old high boundary) is
    a free block of `sp` bytes that is a node of the free list: the extension
    succeeds, and the new block coalesces backwards (case 3) into a free block
    of `words * 8 + sp` bytes at the previous block's start, which becomes the
    head of the free list. -/
theorem extend_heap_post_free (s : St) (aP bP : List Nat) (words sp : Nat)
    (hrep : free_list_rep s (aP ++ (s.hi - sp) :: bP) = true)
    (hnodes : nodesOkB (aP ++ (s.hi - sp) :: bP) = true)
    (hnodup : (aP ++ (s.hi - sp) :: bP).Nodup)
    (hw : words % 2 = 0) (h32 : 32 ≤ words * 8)
    (hsbrk : s.hi + words * 8 ≤ memLo + s.cap)
    (hbig : s.hi + words * 8 < 2 ^ 64)
    (hhi16 : s.hi % 16 = 0) (hsplo : memLo + 32 + sp ≤ s.hi)
    (hpf : s.mem (s.hi - 16) = sp) (hsp16 : 16 ∣ sp) (hsp32 : 32 ≤ sp)
    (hph : s.mem (s.hi - sp - 8) = sp)
    (hbelow : ∀ x ∈ aP ++ bP, x + 40 + sp ≤ s.hi) :
    ∀ E ret, extend_heap s words = some (E, ret) →
      ret = s.hi - sp ∧ E.mem (HDRP (s.hi - sp)) = words * 8 + sp ∧
      free_list_rep E ((s.hi - sp) :: (aP ++ bP)) = true ∧
      E.heap_start = s.hi - sp ∧
      E.hi = s.hi + words * 8 ∧ E.cap = s.cap := by
  intro E ret heq
  have h16 : 16 ∣ words * 8 := ⟨words / 2, by omega⟩
  have hmemall : ∀ x ∈ aP ++ (s.hi - sp) :: bP, x = s.hi - sp ∨ x + 40 + sp ≤ s.hi := by
    intro x hx
    rcases List.mem_append.mp hx with hxa | hxc
    · exact Or.inr (hbelow x (List.mem_append.mpr (Or.inl hxa)))
    · rcases List.mem_cons.mp hxc with rfl | hxb
      · exact Or.inl rfl
      · exact Or.inr (hbelow x (List.mem_append.mpr (Or.inr hxb)))
  have key : extend_heap s words = some (coalesce
      (PUT (PUT (PUT { s with hi := s.hi + words * 8 } (HDRP s.hi)
          (PACK (words * 8) 0))
        (FTRP (PUT { s with hi := s.hi + words * 8 } (HDRP s.hi)
          (PACK (words * 8) 0)).mem s.hi)
        (PACK (words * 8) 0))
        (HDRP (NEXT_BLKP (PUT (PUT { s with hi := s.hi + words * 8 } (HDRP s.hi)
            (PACK (words * 8) 0))
          (FTRP (PUT { s with hi := s.hi + words * 8 } (HDRP s.hi)
            (PACK (words * 8) 0)).mem s.hi)
          (PACK (words * 8) 0)).mem s.hi))
        (PACK 0 1)) s.hi) := by
    simp only [extend_heap]
    rw [show (if words % 2 = 1 then w64 (w64 (words * WSIZE) + WSIZE)
        else w64 (words * WSIZE)) = words * 8 from by
      rw [if_neg (by omega)]
      simp only [w64, WSIZE]
      omega]
    rw [mem_sbrk_eq, if_pos hsbrk]
  have e1 : HDRP s.hi = s.hi - 8 := rfl
  rw [e1] at key
  have hputmem : (PUT { s with hi := s.hi + words * 8 } (s.hi - 8)
      (PACK (words * 8) 0)).mem (s.hi - 8) = words * 8 := by
    rw [PUT_mem_same]
    rw [show PACK (words * 8) 0 = words * 8 from by simp [PACK]]
    exact w64_small _ (by omega)
  have e2 : FTRP (PUT { s with hi := s.hi + words * 8 } (s.hi - 8)
      (PACK (words * 8) 0)).mem s.hi = s.hi + words * 8 - 16 := by
    simp only [FTRP, e1]
    rw [hputmem, GET_SIZE_self _ h16]
  rw [e2] at key
  have e3 : HDRP (NEXT_BLKP (PUT (PUT { s with hi := s.hi + words * 8 } (s.hi - 8)
      (PACK (words * 8) 0)) (s.hi + words * 8 - 16) (PACK (words * 8) 0)).mem
      s.hi) = s.hi + words * 8 - 8 := by
    simp only [NEXT_BLKP, e1]
    rw [PUT_mem_other _ _ _ _ (by omega), hputmem, GET_SIZE_self _ h16]
    simp only [HDRP]
  rw [e3] at key
  have hrep4 : free_list_rep (PUT (PUT (PUT { s with hi := s.hi + words * 8 }
      (s.hi - 8) (PACK (words * 8) 0)) (s.hi + words * 8 - 16)
      (PACK (words * 8) 0)) (s.hi + words * 8 - 8) (PACK 0 1))
      (aP ++ (s.hi - sp) :: bP) = true := by
    apply free_list_rep_PUT
    · apply free_list_rep_PUT
      · apply free_list_rep_PUT _ _ _ _ hrep
        intro x hx
        rcases hmemall x hx with rfl | hb
        · omega
        · omega
      · intro x hx
        rcases hmemall x hx with rfl | hb
        · omega
        · omega
    · intro x hx
      rcases hmemall x hx with rfl | hb
      · omega
      · omega
  have hpf4 : (PUT (PUT (PUT { s with hi := s.hi + words * 8 } (s.hi - 8)
      (PACK (words * 8) 0)) (s.hi + words * 8 - 16) (PACK (words * 8) 0))
      (s.hi + words * 8 - 8) (PACK 0 1)).mem (s.hi - 16) = sp := by
    rw [PUT3_mem, if_neg (by omega), if_neg (by omega), if_neg (by omega)]
    exact hpf
  have hph4 : (PUT (PUT (PUT { s with hi := s.hi + words * 8 } (s.hi - 8)
      (PACK (words * 8) 0)) (s.hi + words * 8 - 16) (PACK (words * 8) 0))
      (s.hi + words * 8 - 8) (PACK 0 1)).mem (s.hi - sp - 8) = sp := by
    rw [PUT3_mem, if_neg (by omega), if_neg (by omega), if_neg (by omega)]
    exact hph
  have hbh4 : (PUT (PUT (PUT { s with hi := s.hi + words * 8 } (s.hi - 8)
      (PACK (words * 8) 0)) (s.hi + words * 8 - 16) (PACK (words * 8) 0))
      (s.hi + words * 8 - 8) (PACK 0 1)).mem (HDRP s.hi) = words * 8 := by
    rw [e1, PUT3_mem, if_neg (by omega), if_neg (by omega), if_pos rfl]
    rw [show PACK (words * 8) 0 = words * 8 from by simp [PACK]]
    exact w64_small _ (by omega)
  have hnh4 : (PUT (PUT (PUT { s with hi := s.hi + words * 8 } (s.hi - 8)
      (PACK (words * 8) 0)) (s.hi + words * 8 - 16) (PACK (words * 8) 0))
      (s.hi + words * 8 - 8) (PACK 0 1)).mem (s.hi + words * 8 - 8) = 0 + 1 := by
    rw [PUT3_mem, if_pos rfl]
    decide
  have hsep4 : sepB (aP ++ (s.hi - sp) :: bP) [s.hi - sp - 8, s.hi + words * 8 - 16]
      = true := by
    apply sepB_intro
    intro n hn t ht
    rcases hmemall n hn with rfl | hb <;>
      rcases List.mem_cons.mp ht with rfl | ht2 <;>
        first
          | omega
          | (rcases List.mem_singleton.mp ht2 with rfl; omega)
  obtain ⟨hret, hhdr, hftr, hrepC, hhsC, hhiC, hcapC⟩ := coalesce_case3 _ aP bP s.hi sp
    (words * 8) 0 hrep4 hnodes hnodup hpf4 hsp16 hsp32 hph4 hbh4 h16 (by omega)
    hnh4 (dvd_zero 16) hhi16 (by omega) (by omega) hsep4
  rw [key] at heq
  simp only [Option.some.injEq] at heq
  have hE : (coalesce (PUT (PUT (PUT { s with hi := s.hi + words * 8 } (s.hi - 8)
      (PACK (words * 8) 0)) (s.hi + words * 8 - 16) (PACK (words * 8) 0))
      (s.hi + words * 8 - 8) (PACK 0 1)) s.hi).1 = E := by
    rw [heq]
  have hr : (coalesce (PUT (PUT (PUT { s with hi := s.hi + words * 8 } (s.hi - 8)
      (PACK (words * 8) 0)) (s.hi + words * 8 - 16) (PACK (words * 8) 0))
      (s.hi + words * 8 - 8) (PACK 0 1)) s.hi).2 = ret := by
    rw [heq]
  subst hE
  subst hr
  refine ⟨hret, ?_, hrepC, hhsC, hhiC, hcapC⟩
  rw [show HDRP (s.hi - sp) = s.hi - sp - 8 from rfl, hhdr]
  simp [PACK]

/-- The heap extension performed by the no-fit branch of `mm_malloc`
    (`extend_heap` by `max(asize, CHUNKSIZE) / WSIZE` words), on a heap whose
    top block is either allocated (`ap = 1`) or a free node of the list
    (`ap = 0`): on success the returned block heads the free list, its header
    holds its size `sb`, and `asize ≤ sb` with a remainder below `2 ^ 31`. -/
theorem extend_for_malloc (s : St) (l : List Nat) (asize sp ap : Nat)
    (hrep : free_list_rep s l = true)
    (hnodes : nodesOkB l = true)
    (hnodup : l.Nodup)
    (hasize16 : 16 ∣ asize) (hasize64 : asize < 2 ^ 64)
    (hhi16 : s.hi % 16 = 0) (hhilo : memLo + 48 ≤ s.hi)
    (hcap : memLo + s.cap < 2 ^ 64)
    (hpf : s.mem (s.hi - 16) = sp + ap)
    (hsp16 : 16 ∣ sp) (hsp30 : sp < 2 ^ 30)
    (hap : ap = 1 ∨ ap = 0)
    (hfreeTop : ap = 0 → 32 ≤ sp ∧ s.mem (s.hi - sp - 8) = sp ∧
      memLo + 32 + sp ≤ s.hi ∧
      ∃ aP bP, l = aP ++ (s.hi - sp) :: bP ∧ ∀ x ∈ aP ++ bP, x + 40 + sp ≤ s.hi)
    (hallocTop : ap = 1 → ∀ x ∈ l, x + 40 ≤ s.hi) :
    ∀ E ret, extend_heap s (mm_max asize CHUNKSIZE / WSIZE) = some (E, ret) →
      ∃ l2 sb,
        free_list_rep E (ret :: l2) = true ∧
        nodesOkB l2 = true ∧ l2.Nodup ∧
        (∀ x ∈ l2, x + 40 ≤ ret) ∧
        E.mem (HDRP ret) = sb ∧ 16 ∣ sb ∧
        asize ≤ sb ∧ sb - asize < 2 ^ 31 ∧ ret + sb < 2 ^ 64 ∧
        ret % 16 = 0 ∧ memLo + 32 ≤ ret ∧
        E.heap_start = ret ∧ E.hi = s.hi + mm_max asize CHUNKSIZE ∧
        E.cap = s.cap := by
  intro E ret heq
  have hM : mm_max asize CHUNKSIZE = asize ∨ mm_max asize CHUNKSIZE = CHUNKSIZE := by
    rw [mm_max]
    split
    · exact Or.inl rfl
    · exact Or.inr rfl
  have hM16 : 16 ∣ mm_max asize CHUNKSIZE := by
    rcases hM with h | h <;> rw [h]
    · exact hasize16
    · decide
  have hMa : asize ≤ mm_max asize CHUNKSIZE := by
    rw [mm_max]
    split <;> omega
  have hMc : CHUNKSIZE ≤ mm_max asize CHUNKSIZE := by
    rw [mm_max]
    split <;> omega
  have hM64 : mm_max asize CHUNKSIZE < 2 ^ 64 := by
    rcases hM with h | h <;> rw [h]
    · exact hasize64
    · decide
  obtain ⟨k, hk⟩ := hM16
  have hwM : (mm_max asize CHUNKSIZE / WSIZE) * 8 = mm_max asize CHUNKSIZE := by
    rw [WSIZE]
    omega
  have hweven : (mm_max asize CHUNKSIZE / WSIZE) % 2 = 0 := by
    rw [WSIZE]
    omega
  have h32w : 32 ≤ (mm_max asize CHUNKSIZE / WSIZE) * 8 := by
    rw [hwM]
    have hc : CHUNKSIZE = 4096 := rfl
    omega
  have hsbrk := extend_heap_some_bound s _ (E, ret) hweven
    (by rw [hwM]; exact hM64) heq
  rw [hwM] at hsbrk
  have hrem31 : mm_max asize CHUNKSIZE + sp - asize < 2 ^ 31 := by
    rcases hM with h | h <;> rw [h]
    · omega
    · rw [CHUNKSIZE]
      omega
  rcases hap with hap1 | hap0
  · rw [hap1] at hpf
    have hbelow := hallocTop hap1
    obtain ⟨hret, hhdr, hrepC, hhs, hhi, hcapE⟩ := extend_heap_post_alloc s l
      (mm_max asize CHUNKSIZE / WSIZE) sp hrep hnodes hnodup hweven h32w
      (by rw [hwM]; exact hsbrk) (by rw [hwM]; omega) hhi16 hhilo hpf hsp16
      hbelow E ret heq
    subst hret
    rw [hwM] at hhdr hhi
    refine ⟨l, mm_max asize CHUNKSIZE, hrepC, hnodes, hnodup, hbelow, hhdr,
      ⟨k, hk⟩, hMa, by omega, by omega, hhi16, by omega, hhs, hhi, hcapE⟩
  · obtain ⟨hsp32, hph, hsplo, aP, bP, hl, hbelow⟩ := hfreeTop hap0
    subst hl
    rw [hap0, Nat.add_zero] at hpf
    obtain ⟨hret, hhdr, hrepC, hhs, hhi, hcapE⟩ := extend_heap_post_free s aP bP
      (mm_max asize CHUNKSIZE / WSIZE) sp hrep hnodes hnodup hweven h32w
      (by rw [hwM]; exact hsbrk) (by rw [hwM]; omega) hhi16 hsplo hpf hsp16
      hsp32 hph hbelow E ret heq
    subst hret
    rw [hwM] at hhdr hhi
    have hmemsub : ∀ x ∈ aP ++ bP, x ∈ aP ++ (s.hi - sp) :: bP := by
      intro x hx
      rcases List.mem_append.mp hx with h | h
      · exact List.mem_append.mpr (Or.inl h)
      · exact List.mem_append.mpr (Or.inr (List.mem_cons.mpr (Or.inr h)))
    obtain ⟨hsp16k, hks⟩ := hsp16
    refine ⟨aP ++ bP, mm_max asize CHUNKSIZE + sp, hrepC,
      nodesOkB_sub _ _ hnodes hmemsub, (nodup_middle aP bP _ hnodup).1,
      fun x hx => by have := hbelow x hx; omega, hhdr,
      (by exact Nat.dvd_add ⟨k, hk⟩ ⟨hsp16k, hks⟩), by omega, hrem31,
      by omega, by omega, by omega, hhs, hhi, hcapE⟩

theorem toInt32_sub64_nonneg (x y : Nat) (hyx : y ≤ x) (hx : x < 2 ^ 64)
    (h31 : x - y < 2 ^ 31) : 0 ≤ toInt32 (sub64 x y) := by
  rw [sub64_small x y hyx hx, toInt32_small _ h31]
  omega

/-- Claim C10 (amended): on the allocate path of `mm_malloc`, the block handed
    to `place` always has size at least the adjusted request size — on the
    find-fit branch by the fit test, on the extension branch because the heap
    grows by `max(asize, CHUNKSIZE)` bytes — so the `size_t` subtraction
    block-size minus adjusted-size never underflows.  The free-space-left
    value itself is computed in the 32-bit type `int`: on the extension branch
    it is always non-negative (the remainder is at most `CHUNKSIZE` plus the
    size of the old top free block), while on the find-fit branch it is
    non-negative exactly under the proviso that the remainder is below
    `2 ^ 31` (refuted without the proviso by
    `free_space_left_negative_on_allocate_path`). -/
theorem place_argument_fits (s : St) (l : List Nat) (size fuel sp ap : Nat)
    (hrep : free_list_rep s l = true)
    (hnodes : nodesOkB l = true)
    (hnodup : l.Nodup)
    (hfuel : l.length < fuel)
    (hsizes : ∀ x ∈ l, s.mem (HDRP x) < 2 ^ 64)
    (hhi16 : s.hi % 16 = 0) (hhilo : memLo + 48 ≤ s.hi)
    (hcap : memLo + s.cap < 2 ^ 64)
    (hpf : s.mem (s.hi - 16) = sp + ap)
    (hsp16 : 16 ∣ sp) (hsp30 : sp < 2 ^ 30)
    (hap : ap = 1 ∨ ap = 0)
    (hfreeTop : ap = 0 → 32 ≤ sp ∧ s.mem (s.hi - sp - 8) = sp ∧
      memLo + 32 + sp ≤ s.hi ∧
      ∃ aP bP, l = aP ++ (s.hi - sp) :: bP ∧ ∀ x ∈ aP ++ bP, x + 40 + sp ≤ s.hi)
    (hallocTop : ap = 1 → ∀ x ∈ l, x + 40 ≤ s.hi) :
    (∀ bp, find_fit fuel s (adjusted_size size) = some bp →
      adjusted_size size ≤ GET_SIZE (s.mem (HDRP bp)) ∧
      (GET_SIZE (s.mem (HDRP bp)) - adjusted_size size < 2 ^ 31 →
        0 ≤ toInt32 (sub64 (GET_SIZE (s.mem (HDRP bp))) (adjusted_size size)))) ∧
    ((extend_heap s (mm_max (adjusted_size size) CHUNKSIZE / WSIZE)).isSome
        = true →
      adjusted_size size ≤ GET_SIZE
        (((extend_heap s (mm_max (adjusted_size size) CHUNKSIZE / WSIZE)).getD
          (s, 0)).1.mem
          (HDRP ((extend_heap s (mm_max (adjusted_size size) CHUNKSIZE
            / WSIZE)).getD (s, 0)).2)) ∧
      0 ≤ toInt32 (sub64 (GET_SIZE
        (((extend_heap s (mm_max (adjusted_size size) CHUNKSIZE / WSIZE)).getD
          (s, 0)).1.mem
          (HDRP ((extend_heap s (mm_max (adjusted_size size) CHUNKSIZE
            / WSIZE)).getD (s, 0)).2))) (adjusted_size size))) := by
  constructor
  · intro bp hbp
    have hff := (find_fit_first_fit s l (adjusted_size size) fuel hrep hnodes
      hfuel).1
    rw [hff] at hbp
    have hmem := List.mem_of_find?_eq_some hbp
    have hp := List.find?_some hbp
    simp only [Nat.ble_eq] at hp
    refine ⟨hp, fun h31 => ?_⟩
    have hgs : GET_SIZE (s.mem (HDRP bp)) < 2 ^ 64 :=
      lt_of_le_of_lt (GET_SIZE_le _) (hsizes bp hmem)
    exact toInt32_sub64_nonneg _ _ hp hgs h31
  · intro hiss
    cases heo : extend_heap s (mm_max (adjusted_size size) CHUNKSIZE / WSIZE) with
    | none =>
      rw [heo] at hiss
      simp at hiss
    | some pr =>
      obtain ⟨E, ret⟩ := pr
      obtain ⟨l2, sb, hrepE, hnodesE, hnodupE, hbel, hhdr, hsb16, hasb, hrem,
        hbound, hr16, hrlo, hhsE, hhiE, hcapE⟩ := extend_for_malloc s l
        (adjusted_size size) sp ap hrep hnodes hnodup (adjusted_size_dvd size)
        (adjusted_size_lt size) hhi16 hhilo hcap hpf hsp16 hsp30 hap hfreeTop
        hallocTop E ret heo
      constructor
      · show adjusted_size size ≤ GET_SIZE (E.mem (HDRP ret))
        rw [hhdr, GET_SIZE_self sb hsb16]
        exact hasb
      · show 0 ≤ toInt32 (sub64 (GET_SIZE (E.mem (HDRP ret))) (adjusted_size size))
        rw [hhdr, GET_SIZE_self sb hsb16]
        exact toInt32_sub64_nonneg _ _ hasb (by omega) hrem

/-- Claim C10, counterexample to the unrestricted claim: on the heap
    `stC10neg` (one free block of `2 ^ 31 + 64` bytes), the allocate path for
    a 16-byte request finds a fitting block — no underflow, the block is large
    enough — yet the free-space-left value computed in the C type `int` is
    negative, because the remainder `2 ^ 31 + 32` overflows `int`. -/
theorem free_space_left_negative_on_allocate_path :
    find_fit 10 stC10neg (adjusted_size 16) = some (memLo + 32) ∧
    adjusted_size 16 ≤ GET_SIZE (stC10neg.mem (HDRP (memLo + 32))) ∧
    toInt32 (sub64 (GET_SIZE (stC10neg.mem (HDRP (memLo + 32))))
      (adjusted_size 16)) < 0 := by
  decide

/-- Claim C10, witness: the hypotheses of `place_argument_fits` hold on the
    post-`mm_init` heap `stExt` with its single free node, and the find-fit
    branch conclusion follows for the block it returns. -/
theorem place_argument_fits_witness :
    adjusted_size 16 ≤ GET_SIZE (stExt.mem (HDRP (memLo + 32))) ∧
    (GET_SIZE (stExt.mem (HDRP (memLo + 32))) - adjusted_size 16 < 2 ^ 31 →
      0 ≤ toInt32 (sub64 (GET_SIZE (stExt.mem (HDRP (memLo + 32))))
        (adjusted_size 16))) :=
  (place_argument_fits stExt [memLo + 32] 16 2 4096 0 (by decide) (by decide)
    (by decide) (by decide) (by decide) (by decide) (by decide) (by decide)
    (by decide) (by decide) (by decide) (Or.inr rfl)
    (fun _ => ⟨by decide, by decide, by decide, [], [], by decide, by decide⟩)
    (by decide)).1 (memLo + 32) (by decide)

/-- Claim C6 (counterexample to the unrestricted claim): `mm_malloc` on the
    post-init heap `stExt` succeeds for the contract-legal request
    `size = 2 ^ 64 - 16`, but the adjusted size wraps to 0 in `size_t`
    arithmetic — it is neither the claimed rounded value nor at least
    `size + 16` — and the returned block is far smaller than the request. -/
theorem malloc_overflow_breaks_payload_guarantee :
    0 < 2 ^ 64 - 16 ∧
    (mm_malloc 10 stExt (2 ^ 64 - 16)).2 = some (memLo + 32) ∧
    adjusted_size (2 ^ 64 - 16) = 0 ∧
    adjusted_size (2 ^ 64 - 16) ≠
      (if (2 ^ 64 - 16 : Nat) ≤ DSIZE then DSIZE + OVERHEAD
       else DSIZE * ((2 ^ 64 - 16 + OVERHEAD + (DSIZE - 1)) / DSIZE)) ∧
    ¬ (2 ^ 64 - 16) + 16 ≤ adjusted_size (2 ^ 64 - 16) ∧
    GET_SIZE ((mm_malloc 10 stExt (2 ^ 64 - 16)).1.mem (HDRP (memLo + 32)))
      < 2 ^ 64 - 16 := by
  decide

/-- Claim C6 (amended): for every request `0 < size` whose adjusted-size
    computation does not overflow `size_t` (`size + 31 < 2 ^ 64`), on a
    well-formed heap every successful `mm_malloc` returns a double-word
    (16-byte) aligned pointer to a block of total size at least `size + 16`
    — a usable payload of at least `size` bytes beyond the header and footer
    overhead — and the adjusted internal size is `DSIZE + OVERHEAD` for
    `size ≤ DSIZE` and otherwise `size + OVERHEAD` rounded up to a multiple
    of 16, itself a multiple of 16 and at least `size + 16`. -/
theorem mm_malloc_aligned_payload (s : St) (l : List Nat) (size fuel sp ap : Nat)
    (h0 : 0 < size) (hov : size + 31 < 2 ^ 64)
    (hrep : free_list_rep s l = true)
    (hnodes : nodesOkB l = true)
    (hnodup : l.Nodup)
    (hfuel : l.length < fuel)
    (hhicap : s.hi ≤ memLo + s.cap)
    (htags : ∀ x ∈ l, 16 ∣ s.mem (HDRP x) ∧ 32 ≤ s.mem (HDRP x) ∧
      s.mem (HDRP x) < 2 ^ 31 ∧ x + s.mem (HDRP x) ≤ s.hi)
    (hsep : ∀ x ∈ l, sepB l [x - 8, x + adjusted_size size - 16,
      x + adjusted_size size - 8, x + s.mem (HDRP x) - 16] = true ∧
      x + adjusted_size size ∉ l)
    (hhi16 : s.hi % 16 = 0) (hhilo : memLo + 48 ≤ s.hi)
    (hcap : memLo + s.cap < 2 ^ 64)
    (hpf : s.mem (s.hi - 16) = sp + ap)
    (hsp16 : 16 ∣ sp) (hsp30 : sp < 2 ^ 30)
    (hap : ap = 1 ∨ ap = 0)
    (hfreeTop : ap = 0 → 32 ≤ sp ∧ s.mem (s.hi - sp - 8) = sp ∧
      memLo + 32 + sp ≤ s.hi ∧
      ∃ aP bP, l = aP ++ (s.hi - sp) :: bP ∧ ∀ x ∈ aP ++ bP, x + 40 + sp ≤ s.hi)
    (hallocTop : ap = 1 → ∀ x ∈ l, x + 40 ≤ s.hi) :
    ∀ bp, (mm_malloc fuel s size).2 = some bp →
      bp % 16 = 0 ∧
      adjusted_size size =
        (if size ≤ DSIZE then DSIZE + OVERHEAD
         else DSIZE * ((size + OVERHEAD + (DSIZE - 1)) / DSIZE)) ∧
      16 ∣ adjusted_size size ∧ size + 16 ≤ adjusted_size size ∧
      size + 16 ≤ GET_SIZE ((mm_malloc fuel s size).1.mem (HDRP bp)) := by
  intro bp hbp
  obtain ⟨hformula, hdvd, h32a, hge, hlt64⟩ := adjusted_size_props size h0 hov
  have hsz0 : ¬ size = 0 := by omega
  cases hff : find_fit fuel s (adjusted_size size) with
  | some bq =>
    have hm : mm_malloc fuel s size = (place s bq (adjusted_size size), some bq) := by
      simp only [mm_malloc]
      rw [if_neg hsz0, hff]
    rw [hm] at hbp
    have hbp2 : some bq = some bp := hbp
    obtain rfl : bp = bq := (Option.some.inj hbp2).symm
    have hffs := (find_fit_first_fit s l (adjusted_size size) fuel hrep hnodes
      hfuel).1
    rw [hffs] at hff
    have hmem := List.mem_of_find?_eq_some hff
    have hfit1 := List.find?_some hff
    simp only [Nat.ble_eq] at hfit1
    obtain ⟨a, b, hl⟩ := List.append_of_mem hmem
    obtain ⟨ht16, ht32, ht31, hthi⟩ := htags bp hmem
    obtain ⟨hsepx, hnbx⟩ := hsep bp hmem
    have hbpok := nodesOkB_of_mem _ bp hnodes hmem
    rw [GET_SIZE_self _ ht16] at hfit1
    rw [hl] at hrep hnodes hnodup hsepx hnbx
    have hps := place_spec s a b bp (adjusted_size size) (s.mem (HDRP bp)) hrep
      hnodes hnodup rfl ht16 hdvd h32a hfit1 (by omega) (by omega) hnbx hsepx
    obtain ⟨hhi2, hcap2, hout⟩ := hps
    rw [hm]
    refine ⟨hbpok.1, hformula, hdvd, hge, ?_⟩
    show size + 16 ≤ GET_SIZE ((place s bp (adjusted_size size)).mem (HDRP bp))
    by_cases hc : s.mem (HDRP bp) - adjusted_size size < 32
    · rw [if_pos hc] at hout
      rw [hout.1]
      rw [show PACK (s.mem (HDRP bp)) 1 = s.mem (HDRP bp) + 1 from rfl]
      rw [GET_SIZE_add _ 1 ht16 (by omega)]
      omega
    · rw [if_neg hc] at hout
      rw [hout.1]
      rw [show PACK (adjusted_size size) 1 = adjusted_size size + 1 from rfl]
      rw [GET_SIZE_add _ 1 hdvd (by omega)]
      omega
  | none =>
    cases heo : extend_heap s (mm_max (adjusted_size size) CHUNKSIZE / WSIZE) with
    | none =>
      have hm : mm_malloc fuel s size = (s, none) := by
        simp only [mm_malloc]
        rw [if_neg hsz0, hff, heo]
      rw [hm] at hbp
      simp at hbp
    | some pr =>
      obtain ⟨E, ret⟩ := pr
      have hm : mm_malloc fuel s size =
          (place E ret (adjusted_size size), some ret) := by
        simp only [mm_malloc]
        rw [if_neg hsz0, hff, heo]
      rw [hm] at hbp
      have hbp2 : some ret = some bp := hbp
      obtain rfl : bp = ret := (Option.some.inj hbp2).symm
      obtain ⟨l2, sb, hrepE, hnodesE, hnodupE, hbel, hhdr, hsb16, hasb, hrem,
        hbound, hr16, hrlo, hhsE, hhiE, hcapE⟩ := extend_for_malloc s l
        (adjusted_size size) sp ap hrep hnodes hnodup hdvd hlt64 hhi16 hhilo
        hcap hpf hsp16 hsp30 hap hfreeTop hallocTop E bp heo
      have hnodups : (bp :: l2).Nodup := by
        rw [List.nodup_cons]
        refine ⟨fun h => ?_, hnodupE⟩
        have := hbel _ h
        omega
      have hnodess : nodesOkB (bp :: l2) = true :=
        nodesOkB_cons_intro _ _ hr16 hrlo (by omega) hnodesE
      have hnb2 : bp + adjusted_size size ∉ (bp :: l2) := by
        intro h
        rcases List.mem_cons.mp h with h1 | h2
        · omega
        · have := hbel _ h2
          omega
      have hsep2 : sepB (bp :: l2) [bp - 8, bp + adjusted_size size - 16,
          bp + adjusted_size size - 8, bp + sb - 16] = true := by
        apply sepB_intro
        intro n hn t ht
        rcases List.mem_cons.mp hn with rfl | hn2
        · simp only [List.mem_cons, List.not_mem_nil, or_false] at ht
          rcases ht with rfl | rfl | rfl | rfl <;> omega
        · have := hbel n hn2
          simp only [List.mem_cons, List.not_mem_nil, or_false] at ht
          rcases ht with rfl | rfl | rfl | rfl <;> omega
      have hps := place_spec E [] l2 bp (adjusted_size size) sb hrepE hnodess
        hnodups hhdr hsb16 hdvd h32a hasb hrem hbound hnb2 hsep2
      obtain ⟨hhi2, hcap2, hout⟩ := hps
      rw [hm]
      refine ⟨hr16, hformula, hdvd, hge, ?_⟩
      show size + 16 ≤ GET_SIZE ((place E bp (adjusted_size size)).mem (HDRP bp))
      by_cases hc : sb - adjusted_size size < 32
      · rw [if_pos hc] at hout
        rw [hout.1]
        rw [show PACK sb 1 = sb + 1 from rfl]
        rw [GET_SIZE_add _ 1 hsb16 (by omega)]
        omega
      · rw [if_neg hc] at hout
        rw [hout.1]
        rw [show PACK (adjusted_size size) 1 = adjusted_size size + 1 from rfl]
        rw [GET_SIZE_add _ 1 hdvd (by omega)]
        omega

/-- Claim C6, witness: the hypotheses of `mm_malloc_aligned_payload` hold on
    the post-`mm_init` heap `stExt` for a 16-byte request, and `mm_malloc`
    returns the aligned block `memLo + 32` with at least 32 bytes. -/
theorem mm_malloc_aligned_payload_witness :
    (memLo + 32) % 16 = 0 ∧
    adjusted_size 16 =
      (if (16 : Nat) ≤ DSIZE then DSIZE + OVERHEAD
       else DSIZE * ((16 + OVERHEAD + (DSIZE - 1)) / DSIZE)) ∧
    16 ∣ adjusted_size 16 ∧ 16 + 16 ≤ adjusted_size 16 ∧
    16 + 16 ≤ GET_SIZE ((mm_malloc 2 stExt 16).1.mem (HDRP (memLo + 32))) :=
  mm_malloc_aligned_payload stExt [memLo + 32] 16 2 4096 0 (by decide) (by decide)
    (by decide) (by decide) (by decide) (by decide) (by decide) (by decide)
    (by decide) (by decide) (by decide) (by decide) (by decide) (by decide)
    (by decide) (Or.inr rfl)
    (fun _ => ⟨by decide, by decide, by decide, [], [], by decide, by decide⟩)
    (by decide) (memLo + 32) (by decide)

end Malloc
